import Mathlib

/-!
Verification of the aiida-openmx input composer, dictionary utilities and
stdout parser against their natural-language specification.

The Python sources are shallowly embedded: strings are modelled through
their character lists, Python `dict`s as insertion-ordered association
lists, machine floats as exact rationals, and every fallible operation
(indexing, unpacking, numeric conversion) returns `Except PyErr`.
-/

/-- Python exceptions that the embedded code can raise. -/
inductive PyErr where
  | indexError
  | valueError
  | typeError
  | nameError
  | keyError
  | attributeError
  | inputValidationError (msg : String)
  | featureNotAvailable (msg : String)
  deriving DecidableEq, Repr, Inhabited

/-- Lift an `Option` into `Except`, raising `e` on `none`. -/
def liftO (e : PyErr) : Option α → Except PyErr α
  | none => .error e
  | some a => .ok a

/-- Whitespace recognized by Python `str.strip` / `str.split()`. -/
def isWS (c : Char) : Bool :=
  c = ' ' || c = '\n' || c = '\t' || c = '\r'

/-- Drop leading whitespace characters. -/
def dropWS (cs : List Char) : List Char := cs.dropWhile isWS

/-- Python `str.strip()`: remove whitespace on both ends. -/
def trimC (cs : List Char) : List Char :=
  (dropWS ((dropWS cs.reverse).reverse))

/-- One step of splitting a character list at separators chosen by `p`. -/
def splitStep (p : Char → Bool) (c : Char) (acc : List (List Char)) : List (List Char) :=
  if p c then [] :: acc
  else
    match acc with
    | [] => [[c]]
    | w :: ws => (c :: w) :: ws

/-- Split a character list at every separator character (keeping empty pieces),
as Python `str.split(sep)` does. -/
def splitCore (p : Char → Bool) (cs : List Char) : List (List Char) :=
  cs.foldr (splitStep p) [[]]

/-- Python `str.split()` with no argument: split on runs of whitespace and
drop empty pieces. -/
def wordsC (cs : List Char) : List (List Char) :=
  (splitCore isWS cs).filter (· ≠ [])

/-- Python `needle in haystack` prefix test helper. -/
def hasPre : List Char → List Char → Bool
  | [], _ => true
  | _ :: _, [] => false
  | a :: n, b :: h => a = b && hasPre n h

/-- Python substring test `needle in haystack`. -/
def hasSub : List Char → List Char → Bool
  | n, [] => n.isEmpty
  | n, h@(_ :: t) => hasPre n h || hasSub n t

/-- Substring test on `String`s (Python `needle in line`). -/
def containsSub (needle hay : String) : Bool :=
  hasSub needle.data hay.data

/-- Decimal digit character for a digit value below ten. -/
def digitCh (d : Nat) : Char :=
  match d with
  | 0 => '0' | 1 => '1' | 2 => '2' | 3 => '3' | 4 => '4'
  | 5 => '5' | 6 => '6' | 7 => '7' | 8 => '8' | _ => '9'

/-- Numeric value of a decimal digit character, if it is one. -/
def chDigit (c : Char) : Option Nat :=
  if '0' ≤ c ∧ c ≤ '9' then some (c.toNat - 48) else none

/-- Whether a character is a decimal digit. -/
def isDigitCh (c : Char) : Bool :=
  decide ('0' ≤ c) && decide (c ≤ '9')

/-- Accumulating decimal evaluation of a digit-character list. -/
def digitsValFrom (acc : Nat) : List Char → Option Nat
  | [] => some acc
  | c :: cs =>
    match chDigit c with
    | none => none
    | some d => digitsValFrom (acc * 10 + d) cs

/-- Value of a nonempty all-digit character list, `none` otherwise. -/
def digitsVal (cs : List Char) : Option Nat :=
  if cs.isEmpty then none else digitsValFrom 0 cs

/-- Little-endian digit characters of `n`, with `fuel` bounding the number
of digits (any `fuel ≥ n` is enough). -/
def natCharsAux : Nat → Nat → List Char
  | 0, _ => []
  | _ + 1, 0 => []
  | fuel + 1, n => digitCh (n % 10) :: natCharsAux fuel (n / 10)

/-- Decimal rendering of a natural number, most significant digit first. -/
def natToChars (n : Nat) : List Char :=
  if n = 0 then ['0'] else (natCharsAux n n).reverse

/-- Decimal rendering of an integer. -/
def intToChars (z : Int) : List Char :=
  if z < 0 then '-' :: natToChars z.natAbs else natToChars z.toNat

/-- Round a rational to the nearest integer (ties upward), as fixed-point
`printf`-style formatting does up to measure-zero tie behaviour. -/
def qRound (x : ℚ) : ℤ := ⌊x + 1/2⌋

/-- Fixed-point rendering of a scaled nonnegative mantissa `m` as
`m / 10^w` with exactly `w` fractional digits. -/
def renderScaledW (w : Nat) (m : Nat) : List Char :=
  natToChars (m / 10 ^ w) ++
    '.' :: (List.replicate (w - (natToChars (m % 10 ^ w)).length) '0' ++
      natToChars (m % 10 ^ w))

/-- Python `'{:0.<w>f}'.format(q)`: fixed-point with `w` decimal places. -/
def renderFixedW (w : Nat) (q : ℚ) : List Char :=
  let n : ℤ := qRound (q * 10 ^ w)
  if n < 0 then '-' :: renderScaledW w n.natAbs else renderScaledW w n.toNat

/-- Python `'{:0.12f}'.format(q)`, the float format of
`_FORMAT_TYPE_MAPPING['number']`. -/
def renderFixed12 (q : ℚ) : List Char := renderFixedW 12 q

/-- Exponent marker characters of a Python float literal. -/
def isExpCh (c : Char) : Bool := c = 'e' || c = 'E'

/-- Value of an optionally empty digit run (used for the parts around a
decimal point, where Python `float` accepts `1.` and `.5`). -/
def digitsValOpt (cs : List Char) : Option Nat :=
  if cs.isEmpty then some 0 else digitsValFrom 0 cs

/-- Parse an unsigned decimal mantissa (`digits`, `digits.digits`, `.digits`
or `digits.`). -/
def parseMant (cs : List Char) : Option ℚ :=
  match splitCore (· = '.') cs with
  | [i] => (digitsVal i).map (fun n => (n : ℚ))
  | [i, f] =>
    if i.isEmpty ∧ f.isEmpty then none
    else
      match digitsValOpt i, digitsValOpt f with
      | some iv, some fv => some ((iv : ℚ) + (fv : ℚ) / 10 ^ f.length)
      | _, _ => none
  | _ => none

/-- Parse an optionally signed decimal mantissa. -/
def parseSignedMant (cs : List Char) : Option ℚ :=
  if cs.head? = some '-' then (parseMant cs.tail).map (fun q => -q)
  else if cs.head? = some '+' then parseMant cs.tail
  else parseMant cs

/-- Parse an optionally signed integer (for float exponents). -/
def parseSignedInt (cs : List Char) : Option ℤ :=
  if cs.head? = some '-' then (digitsVal cs.tail).map (fun n => -(n : ℤ))
  else if cs.head? = some '+' then (digitsVal cs.tail).map (fun n => (n : ℤ))
  else (digitsVal cs).map (fun n => (n : ℤ))

/-- Parse the body of a Python float literal (after stripping). -/
def parseFloatC (cs : List Char) : Option ℚ :=
  match splitCore isExpCh cs with
  | [m] => parseSignedMant m
  | [m, e] =>
    match parseSignedMant m, parseSignedInt e with
    | some mv, some ev => some (mv * (10 : ℚ) ^ ev)
    | _, _ => none
  | _ => none

/-- Python `float(s)` on a character list (strips surrounding whitespace). -/
def pyFloatC (cs : List Char) : Option ℚ := parseFloatC (trimC cs)

/-- Parse the body of a Python int literal (after stripping). -/
def parseIntC (cs : List Char) : Option ℤ :=
  if cs.head? = some '-' then (digitsVal cs.tail).map (fun n => -(n : ℤ))
  else if cs.head? = some '+' then (digitsVal cs.tail).map (fun n => (n : ℤ))
  else (digitsVal cs).map (fun n => (n : ℤ))

/-- Python `int(s)` on a character list (strips surrounding whitespace). -/
def pyIntC (cs : List Char) : Option ℤ := parseIntC (trimC cs)

/-- Python `float(s)` raising `ValueError` on failure. -/
def floatE (cs : List Char) : Except PyErr ℚ := liftO .valueError (pyFloatC cs)

/-- Python `int(s)` raising `ValueError` on failure. -/
def intE (cs : List Char) : Except PyErr ℤ := liftO .valueError (pyIntC cs)

/-- `l[i]` with Python `IndexError` semantics. -/
def getE (l : List α) (i : Nat) : Except PyErr α := liftO .indexError l[i]?

/-- `' '.join` at the character level. -/
def joinSpaceC : List (List Char) → List Char
  | [] => []
  | [t] => t
  | t :: ts => t ++ ' ' :: joinSpaceC ts

/-! ## Python dictionaries

A Python `dict` is modelled as an insertion-ordered association list whose
keys are unique.  Assignment `d[k] = v` overwrites in place (keeping the
original position) or appends a fresh key at the end. -/

/-- Python `d[k] = v` on an insertion-ordered association list. -/
def dictSet (d : List (String × α)) (k : String) (v : α) : List (String × α) :=
  if d.any (fun p => p.1 = k) then
    d.map (fun p => if p.1 = k then (k, v) else p)
  else d ++ [(k, v)]

/-- Build a Python `dict` from a sequence of key-value pairs (later pairs
overwrite earlier ones), as `dict(gen)` does. -/
def dictOfPairs (ps : List (String × α)) : List (String × α) :=
  ps.foldl (fun d p => dictSet d p.1 p.2) []

/-- Python `d[k]` lookup returning an `Option`. -/
def dictFind (d : List (String × α)) (k : String) : Option α :=
  (d.find? (fun p => p.1 = k)).map Prod.snd

/-- Python `{**a, **b}` merge: `b`'s entries assigned over `a` in order. -/
def dictMerge (a b : List (String × α)) : List (String × α) :=
  b.foldl (fun d p => dictSet d p.1 p.2) a

/-- Apply a list of assignments to a dictionary in order. -/
def applySets (d : List (String × α)) (us : List (String × α)) : List (String × α) :=
  us.foldl (fun d p => dictSet d p.1 p.2) d

/-- The first-occurrence-ordered list of distinct elements, which is the key
order of `collections.Counter` built from a sequence. -/
def firstOccs : List String → List String
  | [] => []
  | k :: ks => k :: (firstOccs ks).filter (fun x => x ≠ k)

/-- Python `str.upper` (ASCII, which covers every key in this plugin). -/
def strUpper (s : String) : String := String.mk (s.data.map Char.toUpper)

/-- Python `str.lower`. -/
def strLower (s : String) : String := String.mk (s.data.map Char.toLower)

/-- `aiida_openmx.utils.dict.case_transform_dict_keys`.

Transforms every key of `dictionary` with `transform` and rebuilds a dict.
When two keys collapse (`len(new_dict) != len(dictionary)`), the source
code builds `Counter(transform(str(k)) for k in dictionary.keys())` and
then evaluates `[k for k, v in num_items if v > 1]`.  Iterating a `Counter`
yields its *keys* (strings), so the tuple unpacking `k, v` raises
`ValueError` for any key whose length is not 2, and for a length-2 key the
comparison `v > 1` compares `str` with `int` and raises `TypeError`.  The
`InputValidationError` announced by the docstring is never reached. -/
def case_transform_dict_keys (dictionary : List (String × α)) (dict_name : String)
    (func_name : String) (transform : String → String) : Except PyErr (List (String × α)) :=
  let _ := func_name
  let _ := dict_name
  let new_dict := dictOfPairs (dictionary.map (fun p => (transform p.1, p.2)))
  if new_dict.length ≠ dictionary.length then
    match firstOccs (dictionary.map (fun p => transform p.1)) with
    | [] => .error (.inputValidationError dict_name)  -- unreachable: collision needs keys
    | k :: _ => if k.length = 2 then .error .typeError else .error .valueError
  else
    .ok new_dict

/-- `aiida_openmx.utils.dict.uppercase_dict_keys`. -/
def uppercase_dict_keys (dictionary : List (String × α)) (dict_name : String) :
    Except PyErr (List (String × α)) :=
  case_transform_dict_keys dictionary dict_name "uppercase_dict_keys" strUpper

/-- `aiida_openmx.utils.dict.lowercase_dict_keys`. -/
def lowercase_dict_keys (dictionary : List (String × α)) (dict_name : String) :
    Except PyErr (List (String × α)) :=
  case_transform_dict_keys dictionary dict_name "lowercase_dict_keys" strLower

/-! ## JSON values and the parameter schema -/

/-- JSON-ish Python values handled by the input composer. -/
inductive JVal where
  | num (q : ℚ)
  | int (z : ℤ)
  | bool (b : Bool)
  | str (s : String)
  | list (xs : List JVal)
  | dict (d : List (String × JVal))

/-- One entry of the `properties` table of `openmx-input-schema.json`. -/
structure SchemaEntry where
  type : String
  itemsType : Option String := none
  exclusiveMinimum : Option ℚ := none
  maximum : Option ℚ := none
  enum : Option (List String) := none

/-- Numeric view of a `JVal` (`jsonschema` treats ints as numbers). -/
def JVal.asNum : JVal → Option ℚ
  | .num q => some q
  | .int z => some (z : ℚ)
  | _ => none

/-- Modelled from the spec: `jsonschema` type checking as extended by
`_get_validator` (`validate_parameters` delegates to the `jsonschema`
library, which is not part of this repository). -/
def typeOk (t : String) (v : JVal) : Bool :=
  match t, v with
  | "number", .num _ => true
  | "number", .int _ => true
  | "integer", .int _ => true
  | "string", .str _ => true
  | "boolean", .bool _ => true
  | "array", .list _ => true
  | _, _ => false

/-- Modelled from the spec: `jsonschema` numeric bound checking
(`exclusiveMinimum` is exclusive, `maximum` is inclusive), matching the
spec contract `lower < value <= upper`. -/
def boundsOk (e : SchemaEntry) (v : JVal) : Bool :=
  match v.asNum with
  | none => true
  | some q =>
    (match e.exclusiveMinimum with | none => true | some lo => decide (lo < q)) &&
    (match e.maximum with | none => true | some hi => decide (q ≤ hi))

/-- Modelled from the spec: `jsonschema` enum membership for strings. -/
def enumOk (e : SchemaEntry) (v : JVal) : Bool :=
  match e.enum, v with
  | none, _ => true
  | some allowed, .str s => allowed.contains s
  | some _, _ => false

/-- Modelled from the spec: `validate_parameters` of
`aiida_openmx/utils/_input.py` validates a parameter mapping against the
JSON schema file `openmx-input-schema.json`; neither the schema file nor
the `jsonschema` library is under the sources, so the check is modelled
from the spec's §4.1: every keyword must be in the spec table, its value
type must match, declared bounds `lower < value <= upper` must hold, and
string values must belong to a declared allowed set. -/
def validate_parameters (schema : List (String × SchemaEntry))
    (parameters : List (String × JVal)) : Bool :=
  parameters.all (fun p =>
    match dictFind schema p.1 with
    | none => false
    | some e => typeOk e.type p.2 && boundsOk e p.2 && enumOk e p.2)

/-! ## The input composer (`aiida_openmx/utils/_input.py`) -/

/-- Python truthiness (`'on' if value else 'off'`). -/
def pyTruthy : JVal → Bool
  | .bool b => b
  | .int z => decide (z ≠ 0)
  | .num q => decide (q ≠ 0)
  | .str s => decide (s ≠ "")
  | .list xs => !xs.isEmpty
  | .dict d => !d.isEmpty

/-- Python `'{}'.format(value)` / f-string interpolation.  The float
rendering (`repr`-style shortest form in CPython) is approximated by the
fixed 12-decimal form; claims only exercise the string and integer cases. -/
def pyToStr : JVal → String
  | .str s => s
  | .int z => String.mk (intToChars z)
  | .bool b => if b then "True" else "False"
  | .num q => String.mk (renderFixed12 q)
  | .list _ => "[...]"
  | .dict _ => "{...}"

/-- Python iteration over a value (`for x in value`): lists yield items,
dicts yield their keys, strings yield 1-character strings, scalars raise
`TypeError`. -/
def toIter : JVal → Except PyErr (List JVal)
  | .list xs => .ok xs
  | .dict d => .ok (d.map (fun p => JVal.str p.1))
  | .str s => .ok (s.data.map (fun c => JVal.str (String.mk [c])))
  | _ => .error .typeError

/-- Python subscript `value[key]` with a string key. -/
def subscript (v : JVal) (k : String) : Except PyErr JVal :=
  match v with
  | .dict d => liftO .keyError (dictFind d k)
  | _ => .error .typeError

/-- Tuple unpacking `x, y, z = seq` (raises `ValueError` on a length
mismatch). -/
def unpack3 (l : List α) : Except PyErr (α × α × α) :=
  match l with
  | [a, b, c] => .ok (a, b, c)
  | _ => .error .valueError

/-- `_FORMAT_TYPE_MAPPING[t].format(v)`: `KeyError` for a type outside the
table; for a value that does not fit the format spec, `ValueError` when
the value's `__format__` rejects the code (`'{:0.12f}'` needs a number —
Python `bool` counts as an integer — and `'{:d}'` needs an integer) and
`TypeError` for a container, whose `object.__format__` rejects any
non-empty spec; `'{}'` accepts anything. -/
def formatTok (t : String) (v : JVal) : Except PyErr String :=
  if t = "number" then
    match v with
    | .num q => .ok (String.mk (renderFixed12 q))
    | .int z => .ok (String.mk (renderFixed12 (z : ℚ)))
    | .bool b => .ok (String.mk (renderFixed12 (if b then 1 else 0)))
    | .str _ => .error .valueError
    | _ => .error .typeError
  else if t = "integer" then
    match v with
    | .int z => .ok (String.mk (intToChars z))
    | .bool b => .ok (if b then "1" else "0")
    | .num _ => .error .valueError
    | .str _ => .error .valueError
    | _ => .error .typeError
  else if t = "string" then .ok (pyToStr v)
  else .error .keyError

/-- `_FORMAT_TYPE_MAPPING[t]` alone (looked up before iterating in the
array paths). -/
def fmtCheck (t : String) : Except PyErr Unit :=
  if t = "number" ∨ t = "integer" ∨ t = "string" then .ok () else .error .keyError

/-- `'sep'.join(parts)`. -/
def joinWith (sep : String) : List String → String
  | [] => ""
  | [t] => t
  | t :: ts => t ++ sep ++ joinWith sep ts

/-- `_tag_block`: wrap a block body in `<TAG ... TAG>` bracket lines. -/
def _tag_block (block : String) (tag : String) : String :=
  "<" ++ tag ++ "\n" ++ block ++ "\n" ++ tag ++ ">\n"

/-- `x != 0` under Python semantics (non-numeric values are not equal
to `0`). -/
def jNeZero : JVal → Bool
  | .num q => decide (q ≠ 0)
  | .int z => decide (z ≠ 0)
  | .bool b => b
  | _ => true

/-- `ORB_MAP[i]` of `_write_def_atomic_species` (`KeyError` past `f`). -/
def orbMap (i : Nat) : Except PyErr String :=
  match i with
  | 0 => .ok "s"
  | 1 => .ok "p"
  | 2 => .ok "d"
  | 3 => .ok "f"
  | _ => .error .keyError

/-- The orbital-configuration suffix built by `_write_def_atomic_species`:
`''.join(f'{ORB_MAP[i]}{n_orb}' for i, n_orb in enumerate(...) if n_orb != 0)`. -/
def orbConfigStr : Nat → List JVal → Except PyErr String
  | _, [] => .ok ""
  | i, v :: rest =>
    if jNeZero v then
      match orbMap i with
      | .error e => .error e
      | .ok letter =>
        match orbConfigStr (i + 1) rest with
        | .error e => .error e
        | .ok tail => .ok (letter ++ pyToStr v ++ tail)
    else orbConfigStr (i + 1) rest

/-- `_write_def_atomic_species`: render the `DEFINITION.OF.ATOMIC.SPECIES`
block from the per-kind dictionary. -/
def _write_def_atomic_species (v : JVal) : Except PyErr String :=
  match v with
  | .dict d =>
    match d.mapM (fun p => do
        let data := p.2
        let pao ← subscript data "pao"
        let oc ← subscript pao "orbital_configuration"
        let ocItems ← toIter oc
        let cfg ← orbConfigStr 0 ocItems
        let stem ← subscript pao "file_stem"
        let pseudo ← subscript data "pseudo"
        pure (p.1 ++ " " ++ pyToStr stem ++ "-" ++ cfg ++ " " ++ pyToStr pseudo)) with
    | .error e => .error e
    | .ok lines => .ok (_tag_block (joinWith "\n" lines) "DEFINITION.OF.ATOMIC.SPECIES")
  | _ => .error .attributeError

/-- `'{:0.12f}'.format` demanding a number (`ValueError` otherwise). -/
def fmt12E (v : JVal) : Except PyErr String :=
  match v with
  | .num q => .ok (String.mk (renderFixed12 q))
  | .int z => .ok (String.mk (renderFixed12 (z : ℚ)))
  | .bool b => .ok (String.mk (renderFixed12 (if b then 1 else 0)))
  | _ => .error .valueError

/-- `'{:0.6f}'.format` demanding a number. -/
def fmt6E (v : JVal) : Except PyErr String :=
  match v with
  | .num q => .ok (String.mk (renderFixedW 6 q))
  | .int z => .ok (String.mk (renderFixedW 6 (z : ℚ)))
  | .bool b => .ok (String.mk (renderFixedW 6 (if b then 1 else 0)))
  | _ => .error .valueError

/-- One line of the `ATOMS.SPECIESANDCOORDINATES` block. -/
def atomsSpecLine (i : Nat) (data : JVal) : Except PyErr String := do
  let kindName ← subscript data "specie"
  let coords ← subscript data "coords"
  let coordItems ← toIter coords
  let (x, y, z) ← unpack3 coordItems
  let up ← subscript data "up_charge"
  let down ← subscript data "down_charge"
  let xs ← fmt12E x
  let ys ← fmt12E y
  let zs ← fmt12E z
  let ups ← fmt6E up
  let downs ← fmt6E down
  pure (String.mk (natToChars (i + 1)) ++ " " ++ pyToStr kindName ++ " " ++
    xs ++ " " ++ ys ++ " " ++ zs ++ " " ++ ups ++ " " ++ downs)

/-- Index-threaded `mapM` for `enumerate` loops. -/
def mapIdxM (f : Nat → α → Except PyErr β) : Nat → List α → Except PyErr (List β)
  | _, [] => .ok []
  | i, a :: rest =>
    match f i a with
    | .error e => .error e
    | .ok b =>
      match mapIdxM f (i + 1) rest with
      | .error e => .error e
      | .ok bs => .ok (b :: bs)

/-- `_write_atoms_spec_and_coords`. -/
def _write_atoms_spec_and_coords (v : JVal) : Except PyErr String :=
  match toIter v with
  | .error e => .error e
  | .ok rows =>
    match mapIdxM atomsSpecLine 0 rows with
    | .error e => .error e
    | .ok lines => .ok (_tag_block (joinWith "\n" lines) "ATOMS.SPECIESANDCOORDINATES")

/-- `_write_array_block`: rows joined by spaces, wrapped in bracket lines. -/
def _write_array_block (item_type : String) (tag : String) (v : JVal) :
    Except PyErr String := do
  let _ ← fmtCheck item_type
  let rows ← toIter v
  let lines ← rows.mapM (fun row => do
    let items ← toIter row
    let toks ← items.mapM (formatTok item_type)
    pure (joinWith " " toks))
  pure (_tag_block (joinWith "\n" lines) tag)

/-- `_write_band_kpath` is declared with *zero* parameters (and an empty
body); `_BLOCK_PARAMETER_WRITERS[kw](value)` therefore raises `TypeError`
at the call (1 positional argument given, 0 expected) before any text can
be produced. -/
def _write_band_kpath (_v : JVal) : Except PyErr String := .error .typeError

/-- The keys of `_BLOCK_PARAMETER_WRITERS`. -/
def blockWriterKeys : List String :=
  ["ATOMS_SPECIESANDCOORDINATES", "ATOMS_UNITVECTORS", "DEFINITION_OF_ATOMIC_SPECIES",
   "BAND_KPATH", "BAND_KPATH_UNITCELL"]

/-- `_BLOCK_PARAMETER_WRITERS[kw](value)`. -/
def applyBlockWriter (kw : String) (v : JVal) : Except PyErr String :=
  if kw = "ATOMS_SPECIESANDCOORDINATES" then _write_atoms_spec_and_coords v
  else if kw = "ATOMS_UNITVECTORS" then _write_array_block "number" "ATOMS.UNITVECTORS" v
  else if kw = "DEFINITION_OF_ATOMIC_SPECIES" then _write_def_atomic_species v
  else if kw = "BAND_KPATH" then _write_band_kpath v
  else _write_array_block "number" "BAND.KPATH.UNITCELL" v

/-- `kw.replace('_', '.')` (a single-character pattern replaces charwise). -/
def kwDots (kw : String) : String :=
  String.mk (kw.data.map (fun c => if c = '_' then '.' else c))

/-- Serialization of one keyword inside the `write_input_file` loop. -/
def writeKw (schema : List (String × SchemaEntry)) (kw : String) (v : JVal) :
    Except PyErr String := do
  let entry ← liftO .keyError (dictFind schema kw)
  let kw_str := kwDots kw
  if blockWriterKeys.contains kw then applyBlockWriter kw v
  else if entry.type = "array" then do
    let itemType ← liftO .keyError entry.itemsType
    let _ ← fmtCheck itemType
    let items ← toIter v
    let toks ← items.mapM (formatTok itemType)
    pure (joinWith " " (kw_str :: toks) ++ "\n")
  else if entry.type = "boolean" then
    pure (joinWith " " [kw_str, if pyTruthy v then "on" else "off"] ++ "\n")
  else do
    let tok ← formatTok entry.type v
    pure (joinWith " " [kw_str, tok] ++ "\n")

/-- The accumulation loop of `write_input_file`. -/
def writeGo (schema : List (String × SchemaEntry)) :
    List (String × JVal) → String → Except PyErr String
  | [], acc => .ok acc
  | (kw, v) :: rest, acc =>
    match writeKw schema kw v with
    | .error e => .error e
    | .ok content => writeGo schema rest (acc ++ content)

/-- `write_input_file` of `aiida_openmx/utils/_input.py`: iterate
`parameters.items()` in insertion order, dispatch each keyword to a block
writer / array line / boolean line / scalar line, and concatenate. -/
def write_input_file (parameters : List (String × JVal))
    (schema : List (String × SchemaEntry)) : Except PyErr String :=
  writeGo schema parameters ""

/-! ## The DosMain calculation (`aiida_openmx/calculations/dosmain.py`) -/

/-- The inputs of a `DosmainCalculation` relevant to submission
preparation.  Optional inputs are modelled by `Option`/presence flags. -/
structure DosmainInputs where
  dos_type : String
  dos_method : String
  gaussian_broadening : Option ℚ
  pdos_atom_indices : Option (List ℤ)
  has_openmx_input_structure : Bool
  has_openmx_orbital_configurations : Bool
  remote_path : String
  computer_uuid : String

/-- `DosmainCalculation._validate_inputs`. -/
def dosmain_validate_inputs (inp : DosmainInputs) : Except PyErr Unit :=
  if ¬ (inp.dos_method = "tetrahedron" ∨ inp.dos_method = "gaussian") then
    .error (.inputValidationError
      ("`dos_method` should be `tetrahedron` or `gaussian`, not " ++ inp.dos_method))
  else if inp.dos_method = "gaussian" ∧ inp.gaussian_broadening.isNone then
    .error (.inputValidationError
      "`gaussian_broadening` must be provided if `dos_method` is `gaussian`")
  else if inp.dos_type = "pdos" ∧ inp.pdos_atom_indices.isNone then
    .error (.inputValidationError "`pdos_atom_indices` must be provided if `dos_type` is `pdos`")
  else if inp.dos_type = "pdos" ∧ ¬ inp.has_openmx_input_structure then
    .error (.inputValidationError
      "`openmx_input_structure` must be provided if `dos_type` is `pdos`")
  else if inp.dos_type = "pdos" ∧ ¬ inp.has_openmx_orbital_configurations then
    .error (.inputValidationError
      "`openmx_orbital_configurations` must be provided if `dos_type` is `pdos`")
  else .ok ()

/-- `DosmainCalculation._generate_retrieve_list`: the `dos` path returns a
deterministic result filename; every other `dos_type` (i.e. `pdos`) raises
`FeatureNotAvailable`. -/
def _generate_retrieve_list (inp : DosmainInputs) : Except PyErr (List String) :=
  if inp.dos_type = "dos" then
    if inp.dos_method = "tetrahedron" then .ok ["aiida.DOS.Tetrahedron"]
    else .ok ["aiida.DOS.Gaussian"]
  else .error (.featureNotAvailable (inp.dos_type ++ " is not yet supported."))

/-- `DosmainCalculation._write_input_file`: the two/three-line DosMain
control file. -/
def dosmain_write_input_file (inp : DosmainInputs) : Except PyErr String := do
  let s1 := if inp.dos_method = "tetrahedron" then "1\n" else ""
  let s2 ← if inp.dos_method = "gaussian" then
      match inp.gaussian_broadening with
      | none => Except.error PyErr.attributeError
      | some gb => Except.ok ("2\n" ++ String.mk (renderFixed12 gb) ++ "\n")
    else Except.ok ""
  let s3 := if inp.dos_type = "dos" then "1\n" else ""
  let s4 ← if inp.dos_type = "pdos" then
      match inp.pdos_atom_indices with
      | none => Except.error PyErr.attributeError
      | some idxs =>
        Except.ok ("2\n" ++ joinWith " " (idxs.map (fun z => String.mk (intToChars z))) ++ "\n")
    else Except.ok ""
  pure (s1 ++ s2 ++ s3 ++ s4)

/-- The parts of the returned `CalcInfo` (plus the files written into the
sandbox folder) observable from `prepare_for_submission`. -/
structure DosCalcInfo where
  writtenFiles : List (String × String)
  retrieveList : List String
  remoteSymlinkList : List (String × String × String)
  cmdlineParams : List String
  stdinName : String
  stdoutName : String
  deriving DecidableEq, Repr

/-- `DosmainCalculation.prepare_for_submission`: validates, builds the
symlink list, builds the retrieve list, and only then renders and writes
the control file.  An exception anywhere aborts with nothing written. -/
def prepare_for_submission (inp : DosmainInputs) : Except PyErr DosCalcInfo := do
  let _ ← dosmain_validate_inputs inp
  let remote_symlink_list :=
    [(inp.computer_uuid, inp.remote_path ++ "/aiida.Dos.val", "./aiida.Dos.val"),
     (inp.computer_uuid, inp.remote_path ++ "/aiida.Dos.vec", "./aiida.Dos.vec")]
  let retrieve_list ← _generate_retrieve_list inp
  let content ← dosmain_write_input_file inp
  pure { writtenFiles := [("aiida.in", content)],
         retrieveList := retrieve_list ++ ["aiida.out"],
         remoteSymlinkList := remote_symlink_list,
         cmdlineParams := ["aiida.Dos.val", "aiida.Dos.vec"],
         stdinName := "aiida.in",
         stdoutName := "aiida.out" }

/-! ## The stdout parser (`aiida_openmx/parsers/openmx.py`)

`_parse_stdout` is embedded as a single forward scan over the report's
lines, threading a scan state through per-section handlers, followed by
the summary phase.  Python exceptions abort the whole parse, so each
section is modelled as an `Except` computation whose updates are applied
atomically (an aborted parse produces no output record either way). -/

/-- `pymatgen.core.units.Ha_to_eV`. -/
def haToEv : ℚ := 27.21138602

/-- `pymatgen.core.units.bohr_to_ang`. -/
def bohrToAng : ℚ := 0.52917721067

/-- `ENERGY_NAME_MAPPING` (insertion order preserved). -/
def ENERGY_NAME_MAPPING : List (String × String) :=
  [("Uele.", "u_band"), ("Ukin.", "u_kinetic"), ("UH0.", "u_e_screened_coulomb"),
   ("UH1.", "u_ee_coulomb"), ("Una.", "u_neutral_atom"), ("Unl.", "u_non_local"),
   ("Uxc0.", "u_xc_alpha"), ("Uxc1.", "u_xc_beta"), ("Ucore.", "u_core_core_coulomb"),
   ("Uhub.", "u_hubbard"), ("Ucs.", "u_spin_constraint"), ("Uzs.", "u_zeeman_spin_mag"),
   ("Uzo.", "u_zeeman_spin_orb"), ("Uef.", "u_e_field"), ("UvdW.", "u_vdw"),
   ("Uch.", "u_core_hole"), ("Utot.", "u_tot"), ("UpV.", "u_press_vol"),
   ("Enpy.", "enthalpy")]

/-- `DIPOLE_NAME_MAPPING`. -/
def DIPOLE_NAME_MAPPING : List (String × String) :=
  [("Total", "total_dipole"), ("core", "core_dipole"), ("Electron", "electron_dipole"),
   ("Back ground", "background_dipole")]

/-- `TIMING_NAME_MAPPING`. -/
def TIMING_NAME_MAPPING : List (String × String) :=
  [("readfile", "read_input"), ("truncation", "truncation"), ("MD_pac", "md_pac"),
   ("OutData", "write_output"), ("DFT", "dft"), ("Set_OLP_Kin", "ovlp_kin"),
   ("Set_Nonlocal", "nonlocal"), ("Set_ProExpn_VNA", "pro_expn_vna"),
   ("Set_Hamiltonian", "ham"), ("Poisson", "poisson"), ("Diagonalization", "diag"),
   ("Mixing_DM", "mixing_dm"), ("Force", "force"), ("Total_Energy", "total_ene"),
   ("Set_Aden_Grid", "aden_grid"), ("Set_Orbitals_Grid", "orb_grid"),
   ("Set_Density_Grid", "den_grid"), ("RestartFileDFT", "write_restart"),
   ("Mulliken_Charge", "mulliken_chg"), ("FFT(2D)_Density", "fft_2d_den"),
   ("Others", "other")]

/-- Values stored in the parser's output-parameter dictionary. -/
inductive PVal where
  | num (q : ℚ)
  | int (z : ℤ)
  | str (s : String)
  | numList (qs : List ℚ)
  | intList (zs : List ℤ)
  | numMat (m : List (List ℚ))
  | timingRec (minId : ℤ) (minTime : ℚ) (maxId : ℤ) (maxTime : ℚ)
  deriving DecidableEq, Repr

/-- The local `bands` dictionary (re-created afresh at each eigenvalue
marker, so it holds only the most recent occurrence). -/
structure BandsData where
  e_fermi : List ℚ
  n_states : List ℚ
  k_points : List (List ℚ)
  up : List (List ℚ)
  down : List (List ℚ)
  deriving DecidableEq, Repr

/-- The local `final_cart_coords` dictionary. -/
structure CartCoords where
  species : List String
  coords : List (List ℚ)
  deriving DecidableEq, Repr

/-- The state threaded through the line scan of `_parse_stdout`. -/
structure ScanState where
  params : List (String × PVal)
  energies : List (String × List ℚ)
  bands : Option BandsData
  finalCellVectors : Option (List (List ℚ))
  finalCartCoords : Option CartCoords
  deriving DecidableEq, Repr

/-- `energies = {value: [] for value in ENERGY_NAME_MAPPING.values()}`. -/
def energiesInit : List (String × List ℚ) := ENERGY_NAME_MAPPING.map (fun p => (p.2, []))

/-- The initial scan state (`parameters = {}`, locals undefined). -/
def initState : ScanState :=
  { params := [], energies := energiesInit, bands := none,
    finalCellVectors := none, finalCartCoords := none }

/-- Python `line.strip().split()` on a report line. -/
def lineWords (s : String) : List (List Char) := wordsC s.data

/-- The `while marker not in lines[stop]: stop += 1` scan: first index at
or past `start` whose line satisfies `p`; running off the end of the file
is Python's `IndexError`. -/
def findFrom (p : String → Bool) (lines : List String) (start : Nat) : Except PyErr Nat :=
  match (lines.drop start).findIdx? p with
  | none => .error .indexError
  | some k => .ok (start + k)

/-- Python slice `lines[a:b]` (for the 0 ≤ a ≤ b uses of the parser). -/
def sliceLines (lines : List String) (a b : Nat) : List String :=
  (lines.drop a).take (b - a)

/-- Tuple unpacking of four values. -/
def unpack4 (l : List α) : Except PyErr (α × α × α × α) :=
  match l with
  | [a, b, c, d] => .ok (a, b, c, d)
  | _ => .error .valueError

/-- Tuple unpacking of seven values. -/
def unpack7 (l : List α) : Except PyErr (α × α × α × α × α × α × α) :=
  match l with
  | [a, b, c, d, e, f, g] => .ok (a, b, c, d, e, f, g)
  | _ => .error .valueError

/-- Python `s.replace(pat, rep)` for a nonempty pattern (fuel-bounded
left-to-right non-overlapping replacement). -/
def replaceAllGo (pat rep : List Char) : Nat → List Char → List Char
  | 0, cs => cs
  | _ + 1, [] => []
  | fuel + 1, c :: t =>
    if hasPre pat (c :: t) ∧ ¬ pat.isEmpty then
      rep ++ replaceAllGo pat rep fuel ((c :: t).drop pat.length)
    else c :: replaceAllGo pat rep fuel t

/-- Python `s.replace(pat, rep)` (every pattern in the source is nonempty). -/
def replaceAllC (pat rep cs : List Char) : List Char := replaceAllGo pat rep cs.length cs

/-- Section handler for `'OpenMX Ver.' in line`. -/
def sectVersion (line : String) (st : ScanState) : Except PyErr ScanState :=
  if containsSub "OpenMX Ver." line then
    match (lineWords line)[7]? with
    | none => .error .indexError
    | some w => .ok { st with params := dictSet st.params "openmx_version" (.str (String.mk w)) }
  else .ok st

/-- Section handler for `'MPI processes' in line`. -/
def sectMpi (line : String) (st : ScanState) : Except PyErr ScanState :=
  if containsSub "MPI processes" line then do
    let w ← getE (lineWords line) 1
    let n ← intE w
    pure { st with params := dictSet st.params "mpi_procs" (.int n) }
  else .ok st

/-- Section handler for `'OpenMP threads' in line`. -/
def sectOmp (line : String) (st : ScanState) : Except PyErr ScanState :=
  if containsSub "OpenMP threads" line then do
    let w ← getE (lineWords line) 5
    let n ← intE w
    pure { st with params := dictSet st.params "omp_threads" (.int n) }
  else .ok st

/-- Section handler for the used-cutoff line (`split('=')[1].split(',')`,
three floats converted from Rydberg to eV). -/
def sectCutoff (line : String) (st : ScanState) : Except PyErr ScanState :=
  if containsSub "Used cutoff energy (Ryd) for 3D-grids" line then do
    let part ← getE (splitCore (fun c => c = '=') (trimC line.data)) 1
    let (a, b, c) ← unpack3 (splitCore (fun c => c = ',') (trimC part))
    let qa ← floatE a
    let qb ← floatE b
    let qc ← floatE c
    let upds := [("true_scf_ecut", PVal.numList [qa * haToEv / 2, qb * haToEv / 2, qc * haToEv / 2]),
                 ("true_scf_ecut_units", PVal.str "eV")]
    pure { st with params := applySets st.params upds }
  else .ok st

/-- Section handler for the grid-count line. -/
def sectGrid (line : String) (st : ScanState) : Except PyErr ScanState :=
  if containsSub "Num. of grids of a-, b-, and c-axes" line then do
    let part ← getE (splitCore (fun c => c = '=') (trimC line.data)) 1
    let (a, b, c) ← unpack3 (splitCore (fun c => c = ',') (trimC part))
    let za ← intE a
    let zb ← intE b
    let zc ← intE c
    pure { st with params := applySets st.params [("3d_fft_grid", .intList [za, zb, zc])] }
  else .ok st

/-- The marker of the energy-components block. -/
def energyMarker (l : String) : Bool := containsSub "Total energy (Hartree) at MD" l

/-- Values appended while scanning one line of an energy block: for each
`ENERGY_NAME_MAPPING` entry matching the line, `float(words[1]) * Ha_to_eV`
tagged with the mapped name. -/
def energyLineVals (lineStr : String) : Except PyErr (List (String × ℚ)) :=
  ENERGY_NAME_MAPPING.foldlM (fun acc p =>
    if containsSub p.1 lineStr then do
      let w ← getE (lineWords lineStr) 1
      let q ← floatE w
      pure (acc ++ [(p.2, q * haToEv)])
    else pure acc) []

/-- All values appended by one occurrence of the energy block starting at
marker index `i`: lines `i+3` up to the next `Note:` line. -/
def energyBlockVals (lines : List String) (i : Nat) : Except PyErr (List (String × ℚ)) := do
  let stop ← findFrom (fun l => containsSub "Note:" l) lines (i + 3)
  let block := sliceLines lines (i + 3) stop
  let chunks ← block.mapM energyLineVals
  pure chunks.join

/-- Append tagged values to the per-name energy lists (in order). -/
def appendVals (energies : List (String × List ℚ)) (vals : List (String × ℚ)) :
    List (String × List ℚ) :=
  energies.map (fun p => (p.1, p.2 ++ (vals.filter (fun v => v.1 = p.1)).map Prod.snd))

/-- Section handler for the energy-components block. -/
def sectEnergy (lines : List String) (i : Nat) (line : String) (st : ScanState) :
    Except PyErr ScanState :=
  if energyMarker line then
    match energyBlockVals lines i with
    | .error e => .error e
    | .ok vals => .ok { st with energies := appendVals st.energies vals }
  else .ok st

/-- The marker of the eigenvalues block. -/
def eigenMarker (l : String) : Bool := containsSub "Eigenvalues (Hartree) of SCF KS-eq." l

/-- Parse one `kloop` block: the k-point from words 1/3/5 of its second
line and per-band spin-up/down eigenvalues from lines `[3:-2]`. -/
def parseKloop (eigvalsLines : List String) (se : Nat × Nat) :
    Except PyErr (List ℚ × List ℚ × List ℚ) := do
  let kloopLines := sliceLines eigvalsLines se.1 se.2
  let l1 ← getE kloopLines 1
  let kw := lineWords l1
  let k1 ← floatE (← getE kw 1)
  let k2 ← floatE (← getE kw 3)
  let k3 ← floatE (← getE kw 5)
  let rows := (kloopLines.take (kloopLines.length - 2)).drop 3
  let ud ← rows.mapM (fun r => do
    let (_, eUp, eDown) ← unpack3 (lineWords r)
    let u ← floatE eUp
    let d ← floatE eDown
    pure (u * haToEv, d * haToEv))
  pure ([k1, k2, k3], ud.map Prod.fst, ud.map Prod.snd)

/-- Parse one occurrence of the eigenvalues block into a fresh `bands`
record. -/
def eigenBlockData (lines : List String) (i : Nat) : Except PyErr BandsData := do
  let stop0 ← findFrom (fun l => containsSub "*" l) lines (i + 4)
  let eigvalsLines := sliceLines lines (i + 4) (stop0 - 1)
  let l0 ← getE eigvalsLines 0
  let p0 ← getE (splitCore (fun c => c = '=') l0.data) 1
  let eF ← floatE p0
  let l1 ← getE eigvalsLines 1
  let p1 ← getE (splitCore (fun c => c = '=') l1.data) 1
  let nS ← floatE p1
  let kstarts := ((eigvalsLines.enum).filter (fun p => containsSub "kloop" p.2)).map Prod.fst
  let kstops := kstarts.drop 1 ++ [eigvalsLines.length]
  let ks ← (kstarts.zip kstops).mapM (parseKloop eigvalsLines)
  pure { e_fermi := [eF * haToEv], n_states := [nS],
         k_points := ks.map (fun t => t.1),
         up := ks.map (fun t => t.2.1),
         down := ks.map (fun t => t.2.2) }

/-- Section handler for the eigenvalues block (replaces `bands` wholly). -/
def sectEigen (lines : List String) (i : Nat) (line : String) (st : ScanState) :
    Except PyErr ScanState :=
  if eigenMarker line then
    match eigenBlockData lines i with
    | .error e => .error e
    | .ok b => .ok { st with bands := some b }
  else .ok st

/-- Section handler for the cell-optimization history: the block is parsed
(seven fields per row, six numeric) but the local `cell_opt` dictionary is
never exported, so only its exceptions are observable. -/
def sectCellOpt (lines : List String) (i : Nat) (line : String) (st : ScanState) :
    Except PyErr ScanState :=
  if containsSub "History of cell optimization" line then do
    let stop ← findFrom (fun l => containsSub "*" l) lines (i + 7)
    let block := sliceLines lines (i + 7) (stop - 1)
    let _ ← block.mapM (fun l => do
      let (_, s1, s2, s3, s4, s5, s6) ← unpack7 (lineWords l)
      let _ ← floatE s1
      let _ ← floatE s2
      let _ ← floatE s3
      let _ ← floatE s4
      let _ ← floatE s5
      let _ ← floatE s6
      pure ())
    pure st
  else .ok st

/-- Parameter updates contributed by one line of the dipole block. -/
def dipoleLineUpdates (dl : String) : Except PyErr (List (String × PVal)) :=
  if containsSub "Absolute D" dl then do
    let w ← getE (lineWords dl) 2
    let q ← floatE w
    pure [("abs_dipole_mom", .num q), ("abs_dipole_mom_units", .str "Debye")]
  else
    DIPOLE_NAME_MAPPING.foldlM (fun acc p =>
      if containsSub p.1 dl then do
        let rest := trimC (replaceAllC p.1.data [] dl.data)
        let (dx, dy, dz) ← unpack3 (wordsC rest)
        let qx ← floatE dx
        let qy ← floatE dy
        let qz ← floatE dz
        pure (acc ++ [(p.2, PVal.numList [qx, qy, qz]), (p.2 ++ "_units", PVal.str "Debye")])
      else pure acc) []

/-- Section handler for the dipole block. -/
def sectDipole (lines : List String) (i : Nat) (line : String) (st : ScanState) :
    Except PyErr ScanState :=
  if containsSub "Dipole moment (Debye)" line then do
    let stop ← findFrom (fun l => containsSub "*" l) lines (i + 4)
    let block := sliceLines lines (i + 4) stop
    let upds ← block.mapM dipoleLineUpdates
    pure { st with params := applySets st.params upds.join }
  else .ok st

/-- Parse one line of the final-cell-vectors block (only lines containing
the letter `a` are parsed: `x y z |` from `split('=')[1]` minus its last
word, derivatives from `split('=')[2]`). -/
def cellVecLine (cl : String) : Except PyErr (Option (List ℚ × List ℚ)) :=
  if containsSub "a" cl then do
    let parts := splitCore (fun c => c = '=') (trimC cl.data)
    let (cellText, deText) ←
      (match parts.drop 1 with
       | [a, b] => Except.ok (a, b)
       | _ => Except.error PyErr.valueError)
    let cw := wordsC (trimC cellText)
    let (x, y, z) ← unpack3 cw.dropLast
    let qx ← floatE x
    let qy ← floatE y
    let qz ← floatE z
    let dw := wordsC (trimC deText)
    let (dx, dy, dz) ← unpack3 dw
    let qdx ← floatE dx
    let qdy ← floatE dy
    let qdz ← floatE dz
    pure (some ([qx, qy, qz],
      [qdx * haToEv / bohrToAng, qdy * haToEv / bohrToAng, qdz * haToEv / bohrToAng]))
  else pure none

/-- Section handler for the final-cell-vectors block. -/
def sectCellVec (lines : List String) (i : Nat) (line : String) (st : ScanState) :
    Except PyErr ScanState :=
  if containsSub "Cell vectors (Ang.) and derivatives of total energy" line then do
    let stop ← findFrom (fun l => containsSub "*" l) lines (i + 4)
    let block := sliceLines lines (i + 4) stop
    let rows ← block.mapM cellVecLine
    let rs := rows.reduceOption
    pure { st with
      params := applySets st.params
        [("final_de_dcell", .numMat (rs.map (fun t => t.2))),
         ("final_de_dcell_units", .str "eV/Å")],
      finalCellVectors := some (rs.map (fun t => t.1)) }
  else .ok st

/-- Parse one line of the final-coordinates/forces block. -/
def xyzLine (l : String) : Except PyErr (String × List ℚ × List ℚ) := do
  let ws := (lineWords l).drop 1
  let (sp, x, y, z, fx, fy, fz) ← unpack7 ws
  let qx ← floatE x
  let qy ← floatE y
  let qz ← floatE z
  let qfx ← floatE fx
  let qfy ← floatE fy
  let qfz ← floatE fz
  pure (String.mk sp, [qx, qy, qz],
    [qfx * haToEv / bohrToAng, qfy * haToEv / bohrToAng, qfz * haToEv / bohrToAng])

/-- Section handler for the final-coordinates/forces block. -/
def sectXyz (lines : List String) (i : Nat) (line : String) (st : ScanState) :
    Except PyErr ScanState :=
  if containsSub "xyz-coordinates (Ang.) and forces (Hartree/Bohr)" line then do
    let stop ← findFrom (fun l => containsSub "coordinates.forces" l) lines (i + 6)
    let block := sliceLines lines (i + 6) stop
    let rows ← block.mapM xyzLine
    pure { st with
      params := applySets st.params
        [("final_forces", .numMat (rows.map (fun t => t.2.2))),
         ("final_forces_units", .str "eV/Å")],
      finalCartCoords := some { species := rows.map (fun t => t.1),
                                coords := rows.map (fun t => t.2.1) } }
  else .ok st

/-- Section handler for the fractional-coordinates block (locals only;
exceptions are its sole observable effect). -/
def sectFrac (lines : List String) (i : Nat) (line : String) (st : ScanState) :
    Except PyErr ScanState :=
  if containsSub "Fractional coordinates of the final structure" line then do
    let stop ← findFrom (fun l => containsSub "*" l) lines (i + 4)
    let block := sliceLines lines (i + 4) (stop - 1)
    let _ ← block.mapM (fun l => do
      let ws := (lineWords l).drop 1
      let (_, x, y, z) ← unpack4 ws
      let _ ← floatE x
      let _ ← floatE y
      let _ ← floatE z
      pure ())
    pure st
  else .ok st

/-- Per-routine updates of the timing block for one candidate timing line.
The source tests `if key in line:` against `line` — the enclosing loop
variable, i.e. the *section-marker line* — not against `timing_line`. -/
def timingRoutineUpd (markerLine : String) (timingLine : String) :
    Except PyErr (List (String × PVal)) :=
  TIMING_NAME_MAPPING.foldlM (fun acc p =>
    if containsSub p.1 markerLine then do
      let part ← getE (splitCore (fun c => c = '=') (trimC timingLine.data)) 1
      let (a, b, c, d) ← unpack4 (wordsC (trimC part))
      let minId ← intE a
      let minTime ← floatE b
      let maxId ← intE c
      let maxTime ← floatE d
      pure (acc ++ [(p.2, PVal.timingRec minId minTime maxId maxTime),
                    (p.2 ++ "_units", PVal.str "s")])
    else pure acc) []

/-- Section handler for the computational-time block. -/
def sectTiming (lines : List String) (i : Nat) (line : String) (st : ScanState) :
    Except PyErr ScanState :=
  if containsSub "Computational Time (second)" line then do
    let el ← getE lines (i + 4)
    let w ← getE (lineWords el) 1
    let q ← floatE w
    let rest := sliceLines lines (i + 5) lines.length
    let upds ← rest.mapM (timingRoutineUpd line)
    let timingPairs := [("elapsed_time", PVal.num q), ("elapsed_time_units", PVal.str "s")] ++
      upds.join
    pure { st with params := dictMerge st.params timingPairs }
  else .ok st

/-- One iteration of `for line_i, line in enumerate(lines)`: the section
handlers run in source order on the same line. -/
def processLine (lines : List String) (st : ScanState) (i : Nat) (line : String) :
    Except PyErr ScanState := do
  let st ← sectVersion line st
  let st ← sectMpi line st
  let st ← sectOmp line st
  let st ← sectCutoff line st
  let st ← sectGrid line st
  let st ← sectEnergy lines i line st
  let st ← sectEigen lines i line st
  let st ← sectCellOpt lines i line st
  let st ← sectDipole lines i line st
  let st ← sectCellVec lines i line st
  let st ← sectXyz lines i line st
  let st ← sectFrac lines i line st
  sectTiming lines i line st

/-- The scan loop over the enumerated lines. -/
def scanGo (lines : List String) : ScanState → Nat → List String → Except PyErr ScanState
  | st, _, [] => .ok st
  | st, i, l :: rest =>
    match processLine lines st i l with
    | .error e => .error e
    | .ok st2 => scanGo lines st2 (i + 1) rest

/-- The summary loop `for energy_name, value in energies.items():
parameters[energy_name] = value[-1]` (an empty list raises `IndexError`)
plus the unit tags. -/
def summaryFold : List (String × PVal) → List (String × List ℚ) →
    Except PyErr (List (String × PVal))
  | params, [] => .ok params
  | params, (name, vals) :: rest =>
    match vals.getLast? with
    | none => .error .indexError
    | some v =>
      summaryFold (dictSet (dictSet params name (.num v)) (name ++ "_units") (.str "eV")) rest

/-- The derived output structure (kind name, element symbol, position). -/
structure OutStructure where
  cell : List (List ℚ)
  atoms : List (String × String × List ℚ)
  deriving DecidableEq, Repr

/-- Observable result of a completed `_parse_stdout`. -/
structure ParseOut where
  params : List (String × PVal)
  outStructure : Option OutStructure
  deriving DecidableEq, Repr

/-- The `md_type`s for which the final structure takes the parsed cell. -/
def optcMdTypes : List String :=
  ["optc1", "optc2", "optc3", "optc4", "optc5", "optc6", "optc7", "rfc5", "rfc6", "rfc7"]

/-- The phase after the scan: energy summaries, `bands` summaries
(`NameError` when no eigenvalue block was ever seen), and the optional
final structure (referencing locals that are `NameError`s when their
sections never matched; an unknown kind is AiiDA's `ValueError`). -/
def finishPhase (mdType : String) (inputKinds : List (String × String))
    (inputCell : List (List ℚ)) (st : ScanState) : Except PyErr ParseOut := do
  let params1 ← summaryFold st.params st.energies
  let b ← (match st.bands with
    | none => Except.error PyErr.nameError
    | some b => Except.ok b)
  let eF ← liftO .indexError b.e_fermi.getLast?
  let nS ← liftO .indexError b.n_states.getLast?
  let params2 := dictSet (dictSet (dictSet params1 "e_fermi" (.num eF))
    "e_fermi_units" (.str "eV")) "n_states" (.num nS)
  if mdType = "nomd" then
    pure { params := params2, outStructure := none }
  else do
    let cell ← if optcMdTypes.contains mdType then
        (match st.finalCellVectors with
         | none => Except.error PyErr.nameError
         | some c => Except.ok c)
      else Except.ok inputCell
    let cart ← (match st.finalCartCoords with
      | none => Except.error PyErr.nameError
      | some c => Except.ok c)
    let atoms ← (cart.species.zip cart.coords).mapM (fun p => do
      let sym ← liftO .valueError (dictFind inputKinds p.1)
      pure (p.1, sym, p.2))
    pure { params := params2, outStructure := some { cell := cell, atoms := atoms } }

/-- `OpenmxParser._parse_stdout` on the retrieved report's lines. -/
def _parse_stdout (mdType : String) (inputKinds : List (String × String))
    (inputCell : List (List ℚ)) (lines : List String) : Except PyErr ParseOut :=
  match scanGo lines initState 0 lines with
  | .error e => .error e
  | .ok st => finishPhase mdType inputKinds inputCell st

/-- A two-MD-step miniature report used by witnesses: the first energy
block carries every component with value 1.0, the second carries only the
total energy with value 2.0. -/
def c2Lines : List String :=
  ["Total energy (Hartree) at MD", "", "",
   "Uele. 1.0", "Ukin. 1.0", "UH0. 1.0", "UH1. 1.0", "Una. 1.0", "Unl. 1.0",
   "Uxc0. 1.0", "Uxc1. 1.0", "Ucore. 1.0", "Uhub. 1.0", "Ucs. 1.0", "Uzs. 1.0",
   "Uzo. 1.0", "Uef. 1.0", "UvdW. 1.0", "Uch. 1.0", "Utot. 1.0", "UpV. 1.0",
   "Enpy. 1.0", "Note:",
   "Eigenvalues (Hartree) of SCF KS-eq.", "", "", "",
   "Chemical Potential = 0.25", "Number of States = 2.0", "pad", "****",
   "Total energy (Hartree) at MD", "", "", "Utot. 2.0", "Note:"]

/-- The in-insertion-order concatenation of the per-keyword renderings
(`""` standing in for a rendering that raises — `write_input_file` then
raises as a whole). -/
def concatKw (schema : List (String × SchemaEntry)) : List (String × JVal) → String
  | [] => ""
  | p :: rest =>
    (match writeKw schema p.1 p.2 with
     | .ok c => c
     | .error _ => "") ++ concatKw schema rest

/-- Insertion orders used by the `C1` counterexample. -/
def c1Schema : List (String × SchemaEntry) :=
  [("SCF_MAXITER", { type := "integer" }), ("SCF_ENERGYCUTOFF", { type := "number" })]

/-- Parameter mapping with `SCF_MAXITER` inserted first. -/
def c1ParamsA : List (String × JVal) :=
  [("SCF_MAXITER", JVal.int 40), ("SCF_ENERGYCUTOFF", JVal.num 150)]

/-- The same key-value pairs inserted in the opposite order. -/
def c1ParamsB : List (String × JVal) :=
  [("SCF_ENERGYCUTOFF", JVal.num 150), ("SCF_MAXITER", JVal.int 40)]

/-- Concrete `DosmainInputs` for the `C7` witness. -/
def c7Inputs : DosmainInputs :=
  { dos_type := "pdos", dos_method := "tetrahedron", gaussian_broadening := none,
    pdos_atom_indices := some [1, 2], has_openmx_input_structure := true,
    has_openmx_orbital_configurations := true, remote_path := "/remote", computer_uuid := "uuid" }

/-- The marker of the computational-time block. -/
def timingMarker (l : String) : Bool := containsSub "Computational Time (second)" l

/-- The values appended to the energy lists by the iteration handling
`line` at index `i` (empty when the line is not an energy marker; when the
block is malformed the section raises and the whole parse aborts, so the
fallback value is never observable). -/
def energyValsOf (lines : List String) (i : Nat) (line : String) : List (String × ℚ) :=
  if energyMarker line then
    match energyBlockVals lines i with
    | .ok vals => vals
    | .error _ => []
  else []

/-- The contribution of the energy-block occurrence at marker index `j` to
the list of the (aiida-named) energy `name`. -/
def energyContribAt (lines : List String) (j : Nat) (name : String) : List ℚ :=
  ((energyValsOf lines j (lines.getD j "")).filter (fun v => v.1 = name)).map Prod.snd

/-- All energy values appended while scanning `rest` (the lines from index
`i` on). -/
def energyJoin (lines : List String) : Nat → List String → List (String × ℚ)
  | _, [] => []
  | i, l :: rest => energyValsOf lines i l ++ energyJoin lines (i + 1) rest

/-- Every parameter key written by a non-timing section handler. -/
def generalSectKeys : List String :=
  ["openmx_version", "mpi_procs", "omp_threads", "true_scf_ecut", "true_scf_ecut_units",
   "3d_fft_grid", "abs_dipole_mom", "abs_dipole_mom_units", "total_dipole",
   "total_dipole_units", "core_dipole", "core_dipole_units", "electron_dipole",
   "electron_dipole_units", "background_dipole", "background_dipole_units",
   "final_de_dcell", "final_de_dcell_units", "final_forces", "final_forces_units"]

/-- Project the payload out of a successful parse (default on error). -/
def parseOutOf (e : Except PyErr ParseOut) : ParseOut :=
  match e with
  | .ok o => o
  | .error _ => { params := [], outStructure := none }

/-- A miniature report with a timing block whose per-routine lines are
well-formed — used to witness that no per-routine entry is ever parsed. -/
def c9Lines : List String :=
  ["Total energy (Hartree) at MD", "", "",
   "Uele. 1.0", "Ukin. 1.0", "UH0. 1.0", "UH1. 1.0", "Una. 1.0", "Unl. 1.0",
   "Uxc0. 1.0", "Uxc1. 1.0", "Ucore. 1.0", "Uhub. 1.0", "Ucs. 1.0", "Uzs. 1.0",
   "Uzo. 1.0", "Uef. 1.0", "UvdW. 1.0", "Uch. 1.0", "Utot. 1.0", "UpV. 1.0",
   "Enpy. 1.0", "Note:",
   "Eigenvalues (Hartree) of SCF KS-eq.", "", "", "",
   "Chemical Potential = 0.25", "Number of States = 2.0", "pad", "****",
   "Computational Time (second)", "", "", "",
   "Elapsed.Time. 12.5",
   "DFT = 1 2.0 3 4.0",
   "Force = 5 6.0 7 8.0"]

/-- The lines of `c2Lines` before its second energy marker. -/
def c2A : List String :=
  ["Total energy (Hartree) at MD", "", "",
   "Uele. 1.0", "Ukin. 1.0", "UH0. 1.0", "UH1. 1.0", "Una. 1.0", "Unl. 1.0",
   "Uxc0. 1.0", "Uxc1. 1.0", "Ucore. 1.0", "Uhub. 1.0", "Ucs. 1.0", "Uzs. 1.0",
   "Uzo. 1.0", "Uef. 1.0", "UvdW. 1.0", "Uch. 1.0", "Utot. 1.0", "UpV. 1.0",
   "Enpy. 1.0", "Note:",
   "Eigenvalues (Hartree) of SCF KS-eq.", "", "", "",
   "Chemical Potential = 0.25", "Number of States = 2.0", "pad", "****"]

/-- The lines of `c2Lines` after its second energy marker. -/
def c2B : List String := ["", "", "Utot. 2.0", "Note:"]

/-! ## Theorems -/

/-! ### String helper lemmas -/

theorem strAppendAssoc (a b c : String) : a ++ b ++ c = a ++ (b ++ c) := by
  apply String.ext
  simp [String.data_append, List.append_assoc]

theorem strEmptyAppend (a : String) : "" ++ a = a := by
  apply String.ext
  simp [String.data_append]

/-! ### C4: case-insensitive key collision -/

/-- C4: a parameter mapping whose keys `"SCF.Kgrid"` and `"scf.kgrid"`
collapse under case normalization makes `uppercase_dict_keys` raise — but
with an uncaught `ValueError` from unpacking the `Counter`'s keys (the
source iterates `num_items` instead of `num_items.items()`), not with the
`InputValidationError` naming the offending keys that the claim (and the
function's own docstring) promises. -/
theorem c4_collision_raises_valueerror :
    uppercase_dict_keys [("SCF.Kgrid", (0 : ℤ)), ("scf.kgrid", (1 : ℤ))] "parameters"
      = .error .valueError := by
  rfl

/-! ### C10: the BAND_KPATH block writer -/

theorem exceptBindErr (e : PyErr) (f : α → Except PyErr β) :
    (Except.error e >>= f) = Except.error e := rfl

theorem exceptBindOk (a : α) (f : α → Except PyErr β) :
    (Except.ok a >>= f) = f a := rfl

theorem writeKw_band_not_ok (schema : List (String × SchemaEntry)) (v : JVal) :
    ∀ s, writeKw schema "BAND_KPATH" v ≠ .ok s := by
  intro s
  unfold writeKw
  cases h : dictFind schema "BAND_KPATH" with
  | none => simp [h, liftO, exceptBindErr]
  | some e =>
    simp only [h, liftO, exceptBindOk]
    simp +decide [applyBlockWriter, _write_band_kpath]

theorem writeGo_band_not_ok (schema : List (String × SchemaEntry)) :
    ∀ (params : List (String × JVal)) (acc : String),
      "BAND_KPATH" ∈ params.map Prod.fst → ∀ s, writeGo schema params acc ≠ .ok s := by
  intro params
  induction params with
  | nil => intro acc h; simp at h
  | cons p rest ih =>
    intro acc hmem s
    obtain ⟨kw, v⟩ := p
    by_cases hk : kw = "BAND_KPATH"
    · subst hk
      unfold writeGo
      cases hw : writeKw schema "BAND_KPATH" v with
      | error e => simp
      | ok c => exact absurd hw (writeKw_band_not_ok schema v c)
    · have hmem2 : "BAND_KPATH" ∈ rest.map Prod.fst := by
        simp at hmem
        rcases hmem with h | h
        · exact absurd h.symm hk
        · simpa using h
      unfold writeGo
      cases hw : writeKw schema kw v with
      | error e => simp
      | ok c => exact ih (acc ++ c) hmem2 s

/-- C10: `write_input_file` never produces output for a mapping containing
`BAND_KPATH`: the registered writer `_write_band_kpath` takes no
parameters (and has an empty body), so invoking it through
`_BLOCK_PARAMETER_WRITERS[kw](value)` raises `TypeError` before any text
for that keyword can reach the accumulated file content; serialization is
total only on mappings avoiding this keyword. -/
theorem c10_band_kpath_type_error (params : List (String × JVal))
    (schema : List (String × SchemaEntry))
    (hmem : "BAND_KPATH" ∈ params.map Prod.fst) :
    ∀ s, write_input_file params schema ≠ .ok s := by
  intro s
  unfold write_input_file
  exact writeGo_band_not_ok schema params "" hmem s

/-- Witness for C10 at a concrete mapping: the hypothesis holds and the
serialization indeed raises `TypeError`. -/
theorem c10_band_kpath_type_error_witness :
    ("BAND_KPATH" ∈ ([("BAND_KPATH", JVal.list [])].map (Prod.fst (β := JVal)))) ∧
    (∀ s, write_input_file [("BAND_KPATH", JVal.list [])]
        [("BAND_KPATH", { type := "array", itemsType := some "number" })] ≠ .ok s) ∧
    write_input_file [("BAND_KPATH", JVal.list [])]
        [("BAND_KPATH", { type := "array", itemsType := some "number" })] = .error .typeError :=
  ⟨by decide,
   c10_band_kpath_type_error _ _ (by decide),
   by rfl⟩

/-! ### C7: the projected-DOS path -/

/-- C7: for every `DosmainCalculation` input selecting `dos_type = 'pdos'`
(passing input validation, i.e. a valid method, a broadening when the
method is `gaussian`, and the three pdos inputs present),
`prepare_for_submission` raises `FeatureNotAvailable` from
`_generate_retrieve_list` — which runs *before* `_write_input_file` and
before anything is written into the sandbox folder — and more generally
the pdos path can never return a `CalcInfo` (so no partial control file or
retrieve list is ever emitted). -/
theorem c7_pdos_feature_not_available (inp : DosmainInputs)
    (hT : inp.dos_type = "pdos")
    (hM : inp.dos_method = "tetrahedron" ∨ inp.dos_method = "gaussian")
    (hG : inp.dos_method = "gaussian" → inp.gaussian_broadening.isSome = true)
    (hP : inp.pdos_atom_indices.isSome = true)
    (hS : inp.has_openmx_input_structure = true)
    (hO : inp.has_openmx_orbital_configurations = true) :
    prepare_for_submission inp = .error (.featureNotAvailable "pdos is not yet supported.") ∧
    ∀ ci, prepare_for_submission inp ≠ .ok ci := by
  have hP2 : ¬ inp.pdos_atom_indices = none := by
    cases hpi : inp.pdos_atom_indices with
    | none => rw [hpi] at hP; simp at hP
    | some l => simp
  have hval : dosmain_validate_inputs inp = .ok () := by
    unfold dosmain_validate_inputs
    rcases hM with h1 | h1
    · simp [h1, hT, hP2, hS, hO]
    · have hb := hG h1
      cases hbr : inp.gaussian_broadening with
      | none => rw [hbr] at hb; simp at hb
      | some q => simp [h1, hT, hP2, hS, hO, hbr]
  have hret : _generate_retrieve_list inp
      = .error (.featureNotAvailable "pdos is not yet supported.") := by
    unfold _generate_retrieve_list
    rw [hT]
    simp
  have hmain : prepare_for_submission inp
      = .error (.featureNotAvailable "pdos is not yet supported.") := by
    unfold prepare_for_submission
    rw [hval]
    simp only [exceptBindOk]
    rw [hret]
    rfl
  exact ⟨hmain, by intro ci h; rw [hmain] at h; exact absurd h (by simp)⟩

/-- Witness for C7 at concrete inputs. -/
theorem c7_pdos_feature_not_available_witness :
    c7Inputs.dos_type = "pdos" ∧
    prepare_for_submission c7Inputs
      = .error (.featureNotAvailable "pdos is not yet supported.") :=
  ⟨rfl,
   (c7_pdos_feature_not_available c7Inputs rfl (Or.inl rfl)
     (by intro h; simp [c7Inputs] at h) rfl rfl rfl).1⟩

/-! ### C5: lower-exclusive, upper-inclusive bounds -/

/-- C5: for a parameter whose (spec-modelled) schema entry declares bounds
`(lo, hi)` via `exclusiveMinimum`/`maximum`, validation rejects the value
`lo` and accepts the value `hi`: the accepted set is `lo < value <= hi`. -/
theorem c5_bounds_asymmetry (kw : String) (lo hi : ℚ) (h : lo < hi) :
    validate_parameters
        [(kw, { type := "number", exclusiveMinimum := some lo, maximum := some hi })]
        [(kw, JVal.num lo)] = false ∧
    validate_parameters
        [(kw, { type := "number", exclusiveMinimum := some lo, maximum := some hi })]
        [(kw, JVal.num hi)] = true := by
  constructor
  · simp [validate_parameters, dictFind, List.find?, typeOk, boundsOk, enumOk, JVal.asNum]
  · simp [validate_parameters, dictFind, List.find?, typeOk, boundsOk, enumOk, JVal.asNum, h,
      le_refl]

/-- Witness for C5 at `kw = SCF_ENERGYCUTOFF`, `lo = 0`, `hi = 1`. -/
theorem c5_bounds_asymmetry_witness :
    (0 : ℚ) < 1 ∧
    validate_parameters
        [("SCF_ENERGYCUTOFF", { type := "number", exclusiveMinimum := some 0, maximum := some 1 })]
        [("SCF_ENERGYCUTOFF", JVal.num 0)] = false ∧
    validate_parameters
        [("SCF_ENERGYCUTOFF", { type := "number", exclusiveMinimum := some 0, maximum := some 1 })]
        [("SCF_ENERGYCUTOFF", JVal.num 1)] = true :=
  ⟨by norm_num, c5_bounds_asymmetry "SCF_ENERGYCUTOFF" 0 1 (by norm_num)⟩

/-! ### C1: serialization order -/

/-- Counterexample to C1: two parameter mappings holding the same
key-value pairs, both accepted by validation, inserted in opposite orders,
serialize to different byte strings — `write_input_file` iterates
`parameters.items()` (insertion order), not the spec table. -/
theorem c1_insertion_order_counterexample :
    validate_parameters c1Schema c1ParamsA = true ∧
    validate_parameters c1Schema c1ParamsB = true ∧
    c1ParamsB = c1ParamsA.reverse ∧
    write_input_file c1ParamsA c1Schema
      = .ok "SCF.MAXITER 40\nSCF.ENERGYCUTOFF 150.000000000000\n" ∧
    write_input_file c1ParamsB c1Schema
      = .ok "SCF.ENERGYCUTOFF 150.000000000000\nSCF.MAXITER 40\n" ∧
    write_input_file c1ParamsA c1Schema ≠ write_input_file c1ParamsB c1Schema := by
  refine ⟨by with_unfolding_all rfl, by with_unfolding_all rfl, by rfl,
    by with_unfolding_all rfl, by with_unfolding_all rfl, ?_⟩
  intro h
  rw [show write_input_file c1ParamsA c1Schema
      = .ok "SCF.MAXITER 40\nSCF.ENERGYCUTOFF 150.000000000000\n" from by with_unfolding_all rfl,
    show write_input_file c1ParamsB c1Schema
      = .ok "SCF.ENERGYCUTOFF 150.000000000000\nSCF.MAXITER 40\n" from by with_unfolding_all rfl]
      at h
  simp at h

theorem writeGo_concat (schema : List (String × SchemaEntry)) :
    ∀ (params : List (String × JVal)) (acc s : String),
      writeGo schema params acc = .ok s → s = acc ++ concatKw schema params := by
  intro params
  induction params with
  | nil =>
    intro acc s h
    unfold writeGo at h
    cases h
    show acc = acc ++ concatKw schema []
    rw [show concatKw schema [] = "" from rfl]
    exact (String.ext (by simp [String.data_append])).symm
  | cons p rest ih =>
    intro acc s h
    obtain ⟨kw, v⟩ := p
    cases hw : writeKw schema kw v with
    | error e =>
      unfold writeGo at h
      rw [hw] at h
      simp at h
    | ok c =>
      unfold writeGo at h
      rw [hw] at h
      simp only [] at h
      have := ih (acc ++ c) s h
      rw [this]
      have hcons : concatKw schema ((kw, v) :: rest) = c ++ concatKw schema rest := by
        simp [concatKw, hw]
      rw [hcons, strAppendAssoc]

/-- C1, amended: `write_input_file` serializes the keywords in the
mapping's *insertion* order — a successful output is exactly the
concatenation of the per-keyword renderings in `parameters.items()` order
— so byte-identical output is guaranteed only when the mapping was built
in the same insertion order (not for arbitrary orders, and not in
spec-table order). -/
theorem c1_serialization_insertion_order (params : List (String × JVal))
    (schema : List (String × SchemaEntry)) (s : String)
    (h : write_input_file params schema = .ok s) :
    s = concatKw schema params := by
  have := writeGo_concat schema params "" s h
  rw [this]
  exact strEmptyAppend _

/-- Witness for the amended C1 at a concrete mapping. -/
theorem c1_serialization_insertion_order_witness :
    write_input_file c1ParamsA c1Schema
      = .ok "SCF.MAXITER 40\nSCF.ENERGYCUTOFF 150.000000000000\n" ∧
    "SCF.MAXITER 40\nSCF.ENERGYCUTOFF 150.000000000000\n" = concatKw c1Schema c1ParamsA :=
  ⟨by with_unfolding_all rfl,
   c1_serialization_insertion_order c1ParamsA c1Schema _ (by with_unfolding_all rfl)⟩

/-! ### C6: digit and splitting lemmas -/

theorem chDigit_digitCh {d : Nat} (h : d < 10) : chDigit (digitCh d) = some d := by
  interval_cases d <;> decide

theorem isDigitCh_digitCh {d : Nat} (h : d < 10) : isDigitCh (digitCh d) = true := by
  interval_cases d <;> decide

theorem digitsValFrom_append (xs ys : List Char) :
    ∀ acc, digitsValFrom acc (xs ++ ys)
      = (digitsValFrom acc xs).bind (fun a => digitsValFrom a ys) := by
  induction xs with
  | nil => intro acc; simp [digitsValFrom]
  | cons c rest ih =>
    intro acc
    simp only [List.cons_append, digitsValFrom]
    cases chDigit c with
    | none => simp
    | some d => simp [ih]

theorem natCharsAux_val : ∀ (f n acc : Nat), n ≤ f →
    digitsValFrom acc ((natCharsAux f n).reverse)
      = some (acc * 10 ^ (natCharsAux f n).length + n) := by
  intro f
  induction f with
  | zero =>
    intro n acc h
    interval_cases n
    simp [natCharsAux, digitsValFrom]
  | succ f ih =>
    intro n acc h
    cases n with
    | zero => simp [natCharsAux, digitsValFrom]
    | succ m =>
      have hd : (m + 1) / 10 ≤ f := by
        have := Nat.div_lt_self (Nat.succ_pos m) (by norm_num : 1 < 10)
        omega
      have hlt : (m + 1) % 10 < 10 := Nat.mod_lt _ (by norm_num)
      simp only [natCharsAux, List.reverse_cons]
      rw [digitsValFrom_append, ih ((m + 1) / 10) acc hd]
      simp only [Option.bind, digitsValFrom, chDigit_digitCh hlt]
      simp only [List.length_cons]
      congr 1
      have hmod := Nat.div_add_mod (m + 1) 10
      rw [pow_succ, show acc * (10 ^ (natCharsAux f ((m + 1) / 10)).length * 10)
        = acc * 10 ^ (natCharsAux f ((m + 1) / 10)).length * 10 from by ring]
      generalize acc * 10 ^ (natCharsAux f ((m + 1) / 10)).length = Y
      omega

theorem digitsVal_natToChars (n : Nat) : digitsVal (natToChars n) = some n := by
  by_cases h : n = 0
  · subst h; decide
  · unfold natToChars digitsVal
    rw [if_neg h]
    have hne : natCharsAux n n ≠ [] := by
      cases n with
      | zero => exact absurd rfl h
      | succ m => simp [natCharsAux]
    have : (natCharsAux n n).reverse.isEmpty = false := by
      cases hx : (natCharsAux n n).reverse with
      | nil => exact absurd (by simpa using hx) hne
      | cons a l => rfl
    rw [if_neg (by simp [this])]
    rw [natCharsAux_val n n 0 (Nat.le_refl n)]
    simp

theorem natCharsAux_digits : ∀ (f n : Nat), ∀ c ∈ natCharsAux f n, isDigitCh c = true := by
  intro f
  induction f with
  | zero => intro n c hc; simp [natCharsAux] at hc
  | succ f ih =>
    intro n c hc
    cases n with
    | zero => simp [natCharsAux] at hc
    | succ m =>
      simp only [natCharsAux, List.mem_cons] at hc
      rcases hc with h | h
      · rw [h]; exact isDigitCh_digitCh (Nat.mod_lt _ (by norm_num))
      · exact ih _ c h

theorem natToChars_digits (n : Nat) : ∀ c ∈ natToChars n, isDigitCh c = true := by
  intro c hc
  unfold natToChars at hc
  by_cases h : n = 0
  · rw [if_pos h] at hc; simp at hc; rw [hc]; decide
  · rw [if_neg h] at hc
    exact natCharsAux_digits n n c (List.mem_reverse.mp hc)

theorem natToChars_ne_nil (n : Nat) : natToChars n ≠ [] := by
  unfold natToChars
  by_cases h : n = 0
  · rw [if_pos h]; simp
  · rw [if_neg h]
    cases n with
    | zero => exact absurd rfl h
    | succ m => simp [natCharsAux]

theorem natCharsAux_len : ∀ (f n k : Nat), n < 10 ^ k → (natCharsAux f n).length ≤ k := by
  intro f
  induction f with
  | zero => intro n k h; simp [natCharsAux]
  | succ f ih =>
    intro n k h
    cases n with
    | zero => simp [natCharsAux]
    | succ m =>
      cases k with
      | zero => simp at h
      | succ k =>
        have hd : (m + 1) / 10 < 10 ^ k := by
          rw [Nat.div_lt_iff_lt_mul (by norm_num : 0 < 10)]
          calc m + 1 < 10 ^ (k + 1) := h
          _ = 10 ^ k * 10 := by ring
        simp only [natCharsAux, List.length_cons]
        exact Nat.succ_le_succ (ih _ k hd)

theorem natToChars_len {n k : Nat} (hk : 1 ≤ k) (h : n < 10 ^ k) :
    (natToChars n).length ≤ k := by
  unfold natToChars
  by_cases h0 : n = 0
  · rw [if_pos h0]; simpa using hk
  · rw [if_neg h0]
    simpa using natCharsAux_len n n k h

theorem digitsValFrom_zeros (k : Nat) (cs : List Char) :
    digitsValFrom 0 (List.replicate k '0' ++ cs) = digitsValFrom 0 cs := by
  induction k with
  | zero => simp
  | succ m ih =>
    simp only [List.replicate_succ, List.cons_append, digitsValFrom]
    rw [show chDigit '0' = some 0 from by decide]
    simpa using ih

theorem splitStep_not_sep {p : Char → Bool} {c : Char} (h : p c = false) (w : List Char)
    (ws : List (List Char)) : splitStep p c (w :: ws) = (c :: w) :: ws := by
  simp [splitStep, h]

theorem foldr_splitStep_free {p : Char → Bool} :
    ∀ (xs : List Char) (w : List Char) (ws : List (List Char)),
      (∀ c ∈ xs, p c = false) →
      xs.foldr (splitStep p) (w :: ws) = (xs ++ w) :: ws := by
  intro xs
  induction xs with
  | nil => intro w ws _; rfl
  | cons c rest ih =>
    intro w ws hfree
    have hc : p c = false := hfree c (List.mem_cons_self c rest)
    have hrest : ∀ x ∈ rest, p x = false := fun x hx => hfree x (List.mem_cons_of_mem c hx)
    simp only [List.foldr_cons, ih w ws hrest]
    exact splitStep_not_sep hc _ _

theorem splitCore_free {p : Char → Bool} (cs : List Char) (h : ∀ c ∈ cs, p c = false) :
    splitCore p cs = [cs] := by
  unfold splitCore
  rw [foldr_splitStep_free cs [] [] h]
  simp

theorem splitCore_single {p : Char → Bool} (a b : List Char) {c : Char}
    (ha : ∀ x ∈ a, p x = false) (hb : ∀ x ∈ b, p x = false) (hc : p c = true) :
    splitCore p (a ++ c :: b) = [a, b] := by
  unfold splitCore
  rw [List.foldr_append]
  simp only [List.foldr_cons]
  rw [foldr_splitStep_free b [] [] hb]
  rw [show splitStep p c ((b ++ []) :: []) = [] :: (b ++ []) :: [] from by simp [splitStep, hc]]
  rw [foldr_splitStep_free a [] ((b ++ []) :: []) ha]
  simp

/-- `words` of a serialized scalar line `kw ++ ' ' :: tok ++ ['\n']`. -/
theorem wordsC_scalar_line (a b : List Char)
    (ha : ∀ x ∈ a, isWS x = false) (hb : ∀ x ∈ b, isWS x = false)
    (ha0 : a ≠ []) (hb0 : b ≠ []) :
    wordsC (a ++ ' ' :: (b ++ ['\n'])) = [a, b] := by
  unfold wordsC splitCore
  rw [List.foldr_append]
  simp only [List.foldr_cons]
  rw [List.foldr_append]
  simp only [List.foldr_cons, List.foldr_nil]
  rw [show splitStep isWS '\n' [[]] = [[], []] from by decide]
  rw [foldr_splitStep_free b [] [[]] hb]
  rw [show splitStep isWS ' ' ((b ++ []) :: [[]]) = [] :: (b ++ []) :: [[]] from by
    simp [splitStep, show isWS ' ' = true from by decide]]
  rw [foldr_splitStep_free a [] ((b ++ []) :: [[]]) ha]
  simp [List.filter, ha0, hb0]

theorem isDigitCh_not_ws {c : Char} (h : isDigitCh c = true) : isWS c = false := by
  cases hw : isWS c
  · rfl
  · exfalso
    unfold isWS at hw
    simp only [Bool.or_eq_true, decide_eq_true_eq] at hw
    rcases hw with ((h1 | h1) | h1) | h1 <;> subst h1 <;> exact absurd h (by decide)

theorem isDigitCh_not_exp {c : Char} (h : isDigitCh c = true) : isExpCh c = false := by
  cases hw : isExpCh c
  · rfl
  · exfalso
    unfold isExpCh at hw
    simp only [Bool.or_eq_true, decide_eq_true_eq] at hw
    rcases hw with h1 | h1 <;> subst h1 <;> exact absurd h (by decide)

theorem isDigitCh_ne_of_not {c x : Char} (h : isDigitCh c = true) (hx : isDigitCh x = false) :
    (decide (c = x) : Bool) = false := by
  cases hd : (decide (c = x) : Bool)
  · rfl
  · have := of_decide_eq_true hd
    subst this
    rw [h] at hx
    cases hx

/-- The fractional part written by `renderScaledW 12`. -/
theorem renderScaled12_frac_facts (m : Nat) :
    (∀ c ∈ List.replicate (12 - (natToChars (m % 10 ^ 12)).length) '0'
        ++ natToChars (m % 10 ^ 12), isDigitCh c = true) ∧
    (List.replicate (12 - (natToChars (m % 10 ^ 12)).length) '0'
        ++ natToChars (m % 10 ^ 12)).length = 12 ∧
    digitsValOpt (List.replicate (12 - (natToChars (m % 10 ^ 12)).length) '0'
        ++ natToChars (m % 10 ^ 12)) = some (m % 10 ^ 12) := by
  have hr : m % 10 ^ 12 < 10 ^ 12 := Nat.mod_lt _ (by norm_num)
  have hlen : (natToChars (m % 10 ^ 12)).length ≤ 12 := natToChars_len (by norm_num) hr
  refine ⟨?_, ?_, ?_⟩
  · intro c hc
    rcases List.mem_append.mp hc with h | h
    · rw [List.eq_of_mem_replicate h]; decide
    · exact natToChars_digits _ c h
  · rw [List.length_append, List.length_replicate]
    omega
  · have hne : (List.replicate (12 - (natToChars (m % 10 ^ 12)).length) '0'
        ++ natToChars (m % 10 ^ 12)) ≠ [] := by
      intro hx
      exact natToChars_ne_nil _ (List.append_eq_nil.mp hx).2
    unfold digitsValOpt
    rw [if_neg (by simpa [List.isEmpty_iff] using hne)]
    rw [digitsValFrom_zeros]
    have := digitsVal_natToChars (m % 10 ^ 12)
    unfold digitsVal at this
    rwa [if_neg (by simpa [List.isEmpty_iff] using natToChars_ne_nil (m % 10 ^ 12))] at this

theorem renderScaled12_chars (m : Nat) :
    ∀ c ∈ renderScaledW 12 m, isDigitCh c = true ∨ c = '.' := by
  intro c hc
  unfold renderScaledW at hc
  rcases List.mem_append.mp hc with h | h
  · exact Or.inl (natToChars_digits _ c h)
  · rcases List.mem_cons.mp h with h1 | h1
    · exact Or.inr h1
    · exact Or.inl ((renderScaled12_frac_facts m).1 c h1)

theorem parseMant_renderScaled12 (m : Nat) :
    parseMant (renderScaledW 12 m) = some ((m : ℚ) / 10 ^ 12) := by
  obtain ⟨hfd, hfl, hfv⟩ := renderScaled12_frac_facts m
  have hip : ∀ x ∈ natToChars (m / 10 ^ 12), (decide (x = '.') : Bool) = false :=
    fun x hx => isDigitCh_ne_of_not (natToChars_digits _ x hx) (by decide)
  have hfp : ∀ x ∈ List.replicate (12 - (natToChars (m % 10 ^ 12)).length) '0'
      ++ natToChars (m % 10 ^ 12), (decide (x = '.') : Bool) = false :=
    fun x hx => isDigitCh_ne_of_not (hfd x hx) (by decide)
  have hipne : (natToChars (m / 10 ^ 12)).isEmpty = false := by
    simpa [List.isEmpty_iff] using natToChars_ne_nil (m / 10 ^ 12)
  have hipv : digitsValOpt (natToChars (m / 10 ^ 12)) = some (m / 10 ^ 12) := by
    unfold digitsValOpt
    rw [if_neg (by rw [hipne]; simp)]
    have := digitsVal_natToChars (m / 10 ^ 12)
    unfold digitsVal at this
    rwa [if_neg (by rw [hipne]; simp)] at this
  unfold parseMant renderScaledW
  rw [splitCore_single _ _ hip hfp (by decide)]
  simp only [hipne, hipv, hfv, hfl, Bool.false_eq_true, false_and, if_false]
  congr 1
  have hmod := Nat.div_add_mod m (10 ^ 12)
  field_simp
  norm_cast
  omega

theorem renderScaled12_head (m : Nat) :
    ∃ c0 rest, renderScaledW 12 m = c0 :: rest ∧ isDigitCh c0 = true := by
  unfold renderScaledW
  cases hx : natToChars (m / 10 ^ 12) with
  | nil => exact absurd hx (natToChars_ne_nil _)
  | cons c0 r =>
    refine ⟨c0, r ++ '.' :: (List.replicate (12 - (natToChars (m % 10 ^ 12)).length) '0'
        ++ natToChars (m % 10 ^ 12)), ?_, ?_⟩
    · simp
    · exact natToChars_digits _ c0 (by rw [hx]; exact List.mem_cons_self _ _)

theorem parseSignedMant_digits (cs : List Char) (c0 : Char) (rest : List Char)
    (hcs : cs = c0 :: rest) (h0 : isDigitCh c0 = true) :
    parseSignedMant cs = parseMant cs := by
  subst hcs
  unfold parseSignedMant
  rw [if_neg, if_neg]
  · intro h
    simp only [List.head?] at h
    have : c0 = '+' := by injection h
    subst this
    exact absurd h0 (by decide)
  · intro h
    simp only [List.head?] at h
    have : c0 = '-' := by injection h
    subst this
    exact absurd h0 (by decide)

theorem parseFloatC_renderFixed12 (q : ℚ) :
    parseFloatC (renderFixed12 q) = some ((qRound (q * 10 ^ 12) : ℚ) / 10 ^ 12) := by
  unfold renderFixed12 renderFixedW
  by_cases hn : qRound (q * 10 ^ 12) < 0
  · rw [if_pos hn]
    have hexp : ∀ c ∈ '-' :: renderScaledW 12 (qRound (q * 10 ^ 12)).natAbs,
        isExpCh c = false := by
      intro c hc
      rcases List.mem_cons.mp hc with h | h
      · rw [h]; decide
      · rcases renderScaled12_chars _ c h with hd | hd
        · exact isDigitCh_not_exp hd
        · rw [hd]; decide
    unfold parseFloatC
    rw [splitCore_free _ hexp]
    have hsign : parseSignedMant ('-' :: renderScaledW 12 (qRound (q * 10 ^ 12)).natAbs)
        = (parseMant (renderScaledW 12 (qRound (q * 10 ^ 12)).natAbs)).map (fun x => -x) := by
      unfold parseSignedMant
      rw [if_pos (by simp [List.head?])]
      rfl
    have hcast : ((qRound (q * 10 ^ 12) : ℤ) : ℚ) < 0 := by exact_mod_cast hn
    have hq : ((qRound (q * 10 ^ 12)).natAbs : ℚ) = -((qRound (q * 10 ^ 12) : ℤ) : ℚ) := by
      rw [Int.cast_natAbs]
      push_cast
      exact abs_of_neg hcast
    simp only [hsign, parseMant_renderScaled12, hq, Option.map]
    congr 1
    ring
  · rw [if_neg hn]
    have hexp : ∀ c ∈ renderScaledW 12 (qRound (q * 10 ^ 12)).toNat, isExpCh c = false := by
      intro c hc
      rcases renderScaled12_chars _ c hc with hd | hd
      · exact isDigitCh_not_exp hd
      · rw [hd]; decide
    unfold parseFloatC
    rw [splitCore_free _ hexp]
    obtain ⟨c0, rest, hcs, h0⟩ := renderScaled12_head (qRound (q * 10 ^ 12)).toNat
    simp only [parseSignedMant_digits _ c0 rest hcs h0, parseMant_renderScaled12]
    congr 2
    exact_mod_cast Int.toNat_of_nonneg (not_lt.mp hn)

theorem qRound_abs_le (x : ℚ) : |((qRound x : ℤ) : ℚ) - x| ≤ 1 / 2 := by
  unfold qRound
  rw [abs_le]
  constructor
  · have h1 : x + 1/2 - 1 < ((⌊x + 1/2⌋ : ℤ) : ℚ) := Int.sub_one_lt_floor (x + 1/2)
    linarith
  · have h2 : ((⌊x + 1/2⌋ : ℤ) : ℚ) ≤ x + 1/2 := Int.floor_le (x + 1/2)
    linarith

theorem renderFixed12_not_ws (q : ℚ) : ∀ c ∈ renderFixed12 q, isWS c = false := by
  intro c hc
  unfold renderFixed12 renderFixedW at hc
  by_cases hn : qRound (q * 10 ^ 12) < 0
  · rw [if_pos hn] at hc
    rcases List.mem_cons.mp hc with h | h
    · rw [h]; decide
    · rcases renderScaled12_chars _ c h with hd | hd
      · exact isDigitCh_not_ws hd
      · rw [hd]; decide
  · rw [if_neg hn] at hc
    rcases renderScaled12_chars _ c hc with hd | hd
    · exact isDigitCh_not_ws hd
    · rw [hd]; decide

theorem renderFixed12_ne_nil (q : ℚ) : renderFixed12 q ≠ [] := by
  unfold renderFixed12 renderFixedW
  by_cases hn : qRound (q * 10 ^ 12) < 0
  · rw [if_pos hn]; simp
  · rw [if_neg hn]
    obtain ⟨c0, rest, hcs, _⟩ := renderScaled12_head (qRound (q * 10 ^ 12)).toNat
    rw [hcs]
    simp

theorem kwDots_data (kw : String) :
    (kwDots kw).data = kw.data.map (fun c => if c = '_' then '.' else c) := rfl

theorem kwDots_not_ws (kw : String) (h : ∀ c ∈ kw.data, isWS c = false) :
    ∀ c ∈ (kwDots kw).data, isWS c = false := by
  intro c hc
  rw [kwDots_data] at hc
  rcases List.mem_map.mp hc with ⟨x, hx, hfx⟩
  by_cases hu : x = '_'
  · rw [← hfx, hu]; decide
  · rw [← hfx, if_neg hu]; exact h x hx

theorem intToChars_not_ws (z : ℤ) : ∀ c ∈ intToChars z, isWS c = false := by
  intro c hc
  unfold intToChars at hc
  by_cases hz : z < 0
  · rw [if_pos hz] at hc
    rcases List.mem_cons.mp hc with h | h
    · rw [h]; decide
    · exact isDigitCh_not_ws (natToChars_digits _ _ h)
  · rw [if_neg hz] at hc
    exact isDigitCh_not_ws (natToChars_digits _ _ hc)

theorem intToChars_ne_nil (z : ℤ) : intToChars z ≠ [] := by
  unfold intToChars
  by_cases hz : z < 0
  · rw [if_pos hz]; simp
  · rw [if_neg hz]; exact natToChars_ne_nil _

theorem parseIntC_intToChars (z : ℤ) : parseIntC (intToChars z) = some z := by
  unfold intToChars
  by_cases hz : z < 0
  · rw [if_pos hz]
    unfold parseIntC
    rw [if_pos (show ('-' :: natToChars z.natAbs).head? = some '-' from rfl)]
    rw [show ('-' :: natToChars z.natAbs).tail = natToChars z.natAbs from rfl,
      digitsVal_natToChars]
    show some (-(z.natAbs : ℤ)) = some z
    congr 1
    omega
  · rw [if_neg hz]
    unfold parseIntC
    have hmnot : ∀ ch : Char, isDigitCh ch = false →
        ¬ ((natToChars z.toNat).head? = some ch) := by
      intro ch hch h
      cases hcs : natToChars z.toNat with
      | nil => rw [hcs] at h; cases h
      | cons c rest =>
        rw [hcs] at h
        have hc : c = ch := Option.some.inj h
        have hd := natToChars_digits z.toNat c (by rw [hcs]; exact List.mem_cons_self _ _)
        rw [hc, hch] at hd
        cases hd
    rw [if_neg (hmnot '-' (by decide)), if_neg (hmnot '+' (by decide)),
      digitsVal_natToChars]
    show some ((z.toNat : ℤ)) = some z
    congr 1
    omega

theorem writeKw_scalar (schema : List (String × SchemaEntry)) (kw : String)
    (entry : SchemaEntry) (v : JVal) (tok : String)
    (hfind : dictFind schema kw = some entry)
    (hblock : blockWriterKeys.contains kw = false)
    (hna : entry.type ≠ "array") (hnb : entry.type ≠ "boolean")
    (htok : formatTok entry.type v = .ok tok) :
    writeKw schema kw v = .ok ((kwDots kw ++ " ") ++ tok ++ "\n") := by
  unfold writeKw
  rw [hfind]
  simp only [liftO, exceptBindOk]
  rw [hblock]
  rw [if_neg (show ¬ false = true from by decide), if_neg hna, if_neg hnb]
  rw [htok]
  simp only [exceptBindOk]
  rfl

theorem c6_line_split (kw : String) (tok : List Char)
    (hkw0 : kw.data ≠ []) (hkwWS : ∀ c ∈ kw.data, isWS c = false)
    (htokWS : ∀ c ∈ tok, isWS c = false) (htok0 : tok ≠ []) :
    wordsC (("" ++ ((kwDots kw ++ " ") ++ String.mk tok ++ "\n")).data)
      = [(kwDots kw).data, tok] := by
  have hd : ("" ++ ((kwDots kw ++ " ") ++ String.mk tok ++ "\n")).data
      = (kwDots kw).data ++ ' ' :: (tok ++ ['\n']) := by
    simp [String.data_append]
  rw [hd]
  exact wordsC_scalar_line _ _ (kwDots_not_ws kw hkwWS) htokWS
    (by rw [kwDots_data]; simpa using hkw0) htok0

/-- C6 (amended): for a non-block scalar keyword with whitespace-free
nonempty name, splitting the serialized line on whitespace recovers the
keyword and the value token, and the token recovers the original value up
to the declared precision — a real to within `1e-12` (the token denotes
`round(q*10^12)/10^12`), an integer exactly, and a string verbatim
*provided the string itself contains no whitespace*: a string value with
an inner space splits into several tokens and is not recovered. -/
theorem c6_scalar_roundtrip (kw : String) (schema : List (String × SchemaEntry))
    (entry : SchemaEntry) (hfind : dictFind schema kw = some entry)
    (hblock : blockWriterKeys.contains kw = false)
    (hkw0 : kw.data ≠ []) (hkwWS : ∀ c ∈ kw.data, isWS c = false) :
    (∀ q : ℚ, entry.type = "number" →
      ∃ line : String,
        write_input_file [(kw, JVal.num q)] schema = .ok line ∧
        wordsC line.data = [(kwDots kw).data, renderFixed12 q] ∧
        ∃ v : ℚ, parseFloatC (renderFixed12 q) = some v ∧ |v - q| ≤ 1 / 10 ^ 12) ∧
    (∀ z : ℤ, entry.type = "integer" →
      ∃ line : String,
        write_input_file [(kw, JVal.int z)] schema = .ok line ∧
        wordsC line.data = [(kwDots kw).data, intToChars z] ∧
        parseIntC (intToChars z) = some z) ∧
    (∀ s : String, entry.type = "string" → s.data ≠ [] →
      (∀ c ∈ s.data, isWS c = false) →
      ∃ line : String,
        write_input_file [(kw, JVal.str s)] schema = .ok line ∧
        wordsC line.data = [(kwDots kw).data, s.data]) := by
  refine ⟨?_, ?_, ?_⟩
  · intro q htype
    have hkwr : writeKw schema kw (JVal.num q)
        = .ok ((kwDots kw ++ " ") ++ String.mk (renderFixed12 q) ++ "\n") :=
      writeKw_scalar schema kw entry (JVal.num q) (String.mk (renderFixed12 q))
        hfind hblock (by rw [htype]; decide) (by rw [htype]; decide) (by rw [htype]; rfl)
    refine ⟨"" ++ ((kwDots kw ++ " ") ++ String.mk (renderFixed12 q) ++ "\n"), ?_, ?_, ?_⟩
    · unfold write_input_file writeGo
      rw [hkwr]
      rfl
    · exact c6_line_split kw (renderFixed12 q) hkw0 hkwWS
        (renderFixed12_not_ws q) (renderFixed12_ne_nil q)
    · refine ⟨((qRound (q * 10 ^ 12) : ℤ) : ℚ) / 10 ^ 12, parseFloatC_renderFixed12 q, ?_⟩
      have hb := qRound_abs_le (q * 10 ^ 12)
      have hv : ((qRound (q * 10 ^ 12) : ℤ) : ℚ) / 10 ^ 12 - q
          = (((qRound (q * 10 ^ 12) : ℤ) : ℚ) - q * 10 ^ 12) / 10 ^ 12 := by
        field_simp
        ring
      rw [hv, abs_div, abs_of_pos (show (0:ℚ) < 10 ^ 12 from by positivity)]
      calc |((qRound (q * 10 ^ 12) : ℤ) : ℚ) - q * 10 ^ 12| / 10 ^ 12
          ≤ (1 / 2) / 10 ^ 12 := by
            apply div_le_div_of_nonneg_right ?_ (by positivity)
            exact hb
        _ ≤ 1 / 10 ^ 12 := by norm_num
  · intro z htype
    have hkwr : writeKw schema kw (JVal.int z)
        = .ok ((kwDots kw ++ " ") ++ String.mk (intToChars z) ++ "\n") :=
      writeKw_scalar schema kw entry (JVal.int z) (String.mk (intToChars z))
        hfind hblock (by rw [htype]; decide) (by rw [htype]; decide) (by rw [htype]; rfl)
    refine ⟨"" ++ ((kwDots kw ++ " ") ++ String.mk (intToChars z) ++ "\n"), ?_, ?_,
      parseIntC_intToChars z⟩
    · unfold write_input_file writeGo
      rw [hkwr]
      rfl
    · exact c6_line_split kw (intToChars z) hkw0 hkwWS
        (intToChars_not_ws z) (intToChars_ne_nil z)
  · intro s htype hs0 hsWS
    have hkwr : writeKw schema kw (JVal.str s)
        = .ok ((kwDots kw ++ " ") ++ String.mk s.data ++ "\n") :=
      writeKw_scalar schema kw entry (JVal.str s) (String.mk s.data)
        hfind hblock (by rw [htype]; decide) (by rw [htype]; decide) (by rw [htype]; rfl)
    refine ⟨"" ++ ((kwDots kw ++ " ") ++ String.mk s.data ++ "\n"), ?_, ?_⟩
    · unfold write_input_file writeGo
      rw [hkwr]
      rfl
    · exact c6_line_split kw s.data hkw0 hkwWS hsWS hs0

/-- Witness for the C6 theorem at all three scalar types: `1.5` serializes
to `1.500000000000` and parses back exactly, `40` to `40` exactly, and the
whitespace-free string `GGA-PBE` verbatim. -/
theorem c6_scalar_roundtrip_witness :
    (∃ line : String,
      write_input_file [("SCF_ENERGYCUTOFF", JVal.num (3 / 2))]
          [("SCF_ENERGYCUTOFF", { type := "number" })] = .ok line ∧
      wordsC line.data = [(kwDots "SCF_ENERGYCUTOFF").data, renderFixed12 (3 / 2)] ∧
      ∃ v : ℚ, parseFloatC (renderFixed12 (3 / 2)) = some v ∧ |v - 3 / 2| ≤ 1 / 10 ^ 12) ∧
    (∃ line : String,
      write_input_file [("SCF_MAXITER", JVal.int 40)]
          [("SCF_MAXITER", { type := "integer" })] = .ok line ∧
      wordsC line.data = [(kwDots "SCF_MAXITER").data, intToChars 40] ∧
      parseIntC (intToChars 40) = some 40) ∧
    (∃ line : String,
      write_input_file [("SCF_XCTYPE", JVal.str "GGA-PBE")]
          [("SCF_XCTYPE", { type := "string" })] = .ok line ∧
      wordsC line.data = [(kwDots "SCF_XCTYPE").data, "GGA-PBE".data]) ∧
    renderFixed12 (3 / 2) = "1.500000000000".data ∧
    parseFloatC "1.500000000000".data = some (3 / 2) ∧
    intToChars 40 = "40".data :=
  ⟨(c6_scalar_roundtrip "SCF_ENERGYCUTOFF" [("SCF_ENERGYCUTOFF", { type := "number" })]
      { type := "number" } (by rfl) (by rfl) (by decide) (by decide)).1 (3 / 2) (by rfl),
   (c6_scalar_roundtrip "SCF_MAXITER" [("SCF_MAXITER", { type := "integer" })]
      { type := "integer" } (by rfl) (by rfl) (by decide) (by decide)).2.1 40 (by rfl),
   (c6_scalar_roundtrip "SCF_XCTYPE" [("SCF_XCTYPE", { type := "string" })]
      { type := "string" } (by rfl) (by rfl) (by decide) (by decide)).2.2
     "GGA-PBE" (by rfl) (by decide) (by decide),
   by with_unfolding_all rfl,
   by with_unfolding_all rfl,
   by decide⟩

/-- Counterexample to the literal C6 claim's string case: a string value
with an inner space serializes fine, but splitting the line on whitespace
yields three tokens and no token is the original value — the round trip
fails. -/
theorem c6_whitespace_string_counterexample :
    write_input_file [("SYSTEM_NAME", JVal.str "two words")]
        [("SYSTEM_NAME", { type := "string" })] = .ok "SYSTEM.NAME two words\n" ∧
    wordsC "SYSTEM.NAME two words\n".data
      = ["SYSTEM.NAME".data, "two".data, "words".data] ∧
    "two".data ≠ "two words".data ∧ "words".data ≠ "two words".data := by
  refine ⟨?_, by decide, by decide, by decide⟩
  with_unfolding_all rfl

/-! ### Dictionary lemmas for the parser claims -/

theorem find?_set_map_ne (d : List (String × α)) (k' k : String) (v : α) (h : k' ≠ k) :
    List.find? (fun p => p.1 = k) (d.map (fun p => if p.1 = k' then (k', v) else p))
      = List.find? (fun p => p.1 = k) d := by
  induction d with
  | nil => rfl
  | cons p rest ih =>
    simp only [List.map_cons]
    by_cases hp : p.1 = k'
    · rw [List.find?_cons_of_neg _ (by simp [hp]; exact h),
        List.find?_cons_of_neg _ (by simp only [decide_eq_true_eq]; rw [hp]; exact h)]
      exact ih
    · by_cases hk : p.1 = k
      · rw [List.find?_cons_of_pos _ (by simp [hk, Ne.symm h]),
          List.find?_cons_of_pos _ (by simpa using hk)]
        rw [if_neg hp]
      · rw [List.find?_cons_of_neg _ (by simp [hp, hk]),
          List.find?_cons_of_neg _ (by simpa using hk)]
        exact ih

theorem find?_set_map_self (d : List (String × α)) (k : String) (v : α)
    (hany : d.any (fun p => p.1 = k) = true) :
    List.find? (fun p => p.1 = k) (d.map (fun p => if p.1 = k then (k, v) else p))
      = some (k, v) := by
  induction d with
  | nil => simp at hany
  | cons p rest ih =>
    simp only [List.map_cons]
    by_cases hp : p.1 = k
    · rw [List.find?_cons_of_pos _ (by simp [hp])]
      rw [if_pos hp]
    · rw [List.find?_cons_of_neg _ (by simp [hp])]
      refine ih ?_
      simp only [List.any_cons, Bool.or_eq_true] at hany
      rcases hany with h1 | h1
      · exact absurd (by simpa using h1) hp
      · exact h1

theorem dictFind_dictSet_ne (d : List (String × α)) (k' : String) (v : α) (k : String)
    (h : k' ≠ k) : dictFind (dictSet d k' v) k = dictFind d k := by
  unfold dictSet dictFind
  by_cases hc : d.any (fun p => p.1 = k')
  · rw [if_pos hc, find?_set_map_ne d k' k v h]
  · rw [if_neg hc, List.find?_append]
    rw [show List.find? (fun p => p.1 = k) [(k', v)] = none from by
      rw [List.find?_cons_of_neg _ (by simpa using h)]; rfl]
    simp

theorem dictFind_dictSet_self (d : List (String × α)) (k : String) (v : α) :
    dictFind (dictSet d k v) k = some v := by
  unfold dictSet dictFind
  by_cases hc : d.any (fun p => p.1 = k)
  · rw [if_pos hc, find?_set_map_self d k v hc]
    rfl
  · rw [if_neg hc, List.find?_append]
    have hnone : List.find? (fun p => (p.1 = k : Bool)) d = none := by
      rw [List.find?_eq_none]
      intro p hp hpk
      exact hc (List.any_eq_true.mpr ⟨p, hp, hpk⟩)
    rw [hnone]
    simp [List.find?]

theorem dictFind_applySets (d : List (String × α)) (us : List (String × α)) (k : String)
    (h : ∀ u ∈ us, u.1 ≠ k) : dictFind (applySets d us) k = dictFind d k := by
  induction us generalizing d with
  | nil => rfl
  | cons u rest ih =>
    have h1 : u.1 ≠ k := h u (List.mem_cons_self _ _)
    have h2 : ∀ x ∈ rest, x.1 ≠ k := fun x hx => h x (List.mem_cons_of_mem _ hx)
    show dictFind (applySets (dictSet d u.1 u.2) rest) k = dictFind d k
    rw [ih (dictSet d u.1 u.2) h2, dictFind_dictSet_ne d u.1 u.2 k h1]

theorem dictFind_dictMerge (d : List (String × α)) (us : List (String × α)) (k : String)
    (h : ∀ u ∈ us, u.1 ≠ k) : dictFind (dictMerge d us) k = dictFind d k :=
  dictFind_applySets d us k h

/-! ### Section characterization lemmas -/

theorem exceptPure (a : α) : (pure a : Except PyErr α) = .ok a := rfl

theorem sectVersion_chr {line : String} {st st' : ScanState}
    (h : sectVersion line st = .ok st') :
    st'.energies = st.energies ∧ st'.bands = st.bands ∧
    ∀ k, k ∉ generalSectKeys → dictFind st'.params k = dictFind st.params k := by
  unfold sectVersion at h
  by_cases hm : containsSub "OpenMX Ver." line
  · rw [if_pos hm] at h
    cases hw : (lineWords line)[7]? with
    | none => rw [hw] at h; cases h
    | some w =>
      rw [hw] at h
      obtain rfl := Except.ok.inj h
      refine ⟨rfl, rfl, fun k hk => ?_⟩
      exact dictFind_dictSet_ne _ _ _ _ (by intro he; exact hk (he ▸ (by decide)))
  · rw [if_neg hm] at h
    obtain rfl := Except.ok.inj h
    exact ⟨rfl, rfl, fun k _ => rfl⟩

theorem sectMpi_chr {line : String} {st st' : ScanState}
    (h : sectMpi line st = .ok st') :
    st'.energies = st.energies ∧ st'.bands = st.bands ∧
    ∀ k, k ∉ generalSectKeys → dictFind st'.params k = dictFind st.params k := by
  unfold sectMpi at h
  by_cases hm : containsSub "MPI processes" line
  · rw [if_pos hm] at h
    cases hw : getE (lineWords line) 1 with
    | error e => rw [hw] at h; simp [exceptBindErr] at h
    | ok w =>
      rw [hw] at h
      simp only [exceptBindOk] at h
      cases hn : intE w with
      | error e => rw [hn] at h; simp [exceptBindErr] at h
      | ok n =>
        rw [hn] at h
        simp only [exceptBindOk, exceptPure] at h
        obtain rfl := Except.ok.inj h
        refine ⟨rfl, rfl, fun k hk => ?_⟩
        exact dictFind_dictSet_ne _ _ _ _ (by intro he; exact hk (he ▸ (by decide)))
  · rw [if_neg hm] at h
    obtain rfl := Except.ok.inj h
    exact ⟨rfl, rfl, fun k _ => rfl⟩

theorem sectOmp_chr {line : String} {st st' : ScanState}
    (h : sectOmp line st = .ok st') :
    st'.energies = st.energies ∧ st'.bands = st.bands ∧
    ∀ k, k ∉ generalSectKeys → dictFind st'.params k = dictFind st.params k := by
  unfold sectOmp at h
  by_cases hm : containsSub "OpenMP threads" line
  · rw [if_pos hm] at h
    cases hw : getE (lineWords line) 5 with
    | error e => rw [hw] at h; simp [exceptBindErr] at h
    | ok w =>
      rw [hw] at h
      simp only [exceptBindOk] at h
      cases hn : intE w with
      | error e => rw [hn] at h; simp [exceptBindErr] at h
      | ok n =>
        rw [hn] at h
        simp only [exceptBindOk, exceptPure] at h
        obtain rfl := Except.ok.inj h
        refine ⟨rfl, rfl, fun k hk => ?_⟩
        exact dictFind_dictSet_ne _ _ _ _ (by intro he; exact hk (he ▸ (by decide)))
  · rw [if_neg hm] at h
    obtain rfl := Except.ok.inj h
    exact ⟨rfl, rfl, fun k _ => rfl⟩

theorem sectCutoff_chr {line : String} {st st' : ScanState}
    (h : sectCutoff line st = .ok st') :
    st'.energies = st.energies ∧ st'.bands = st.bands ∧
    ∀ k, k ∉ generalSectKeys → dictFind st'.params k = dictFind st.params k := by
  unfold sectCutoff at h
  by_cases hm : containsSub "Used cutoff energy (Ryd) for 3D-grids" line
  · rw [if_pos hm] at h
    cases hw : getE (splitCore (fun c => c = '=') (trimC line.data)) 1 with
    | error e => rw [hw] at h; simp [exceptBindErr] at h
    | ok part =>
      rw [hw] at h
      simp only [exceptBindOk] at h
      cases hu : unpack3 (splitCore (fun c => c = ',') (trimC part)) with
      | error e => rw [hu] at h; simp [exceptBindErr] at h
      | ok t =>
        obtain ⟨a, b, c⟩ := t
        rw [hu] at h
        simp only [exceptBindOk] at h
        cases hfa : floatE a with
        | error e => rw [hfa] at h; simp [exceptBindErr] at h
        | ok qa =>
          rw [hfa] at h
          simp only [exceptBindOk] at h
          cases hfb : floatE b with
          | error e => rw [hfb] at h; simp [exceptBindErr] at h
          | ok qb =>
            rw [hfb] at h
            simp only [exceptBindOk] at h
            cases hfc : floatE c with
            | error e => rw [hfc] at h; simp [exceptBindErr] at h
            | ok qc =>
              rw [hfc] at h
              simp only [exceptBindOk, exceptPure] at h
              obtain rfl := Except.ok.inj h
              refine ⟨rfl, rfl, fun k hk => dictFind_applySets _ _ _ ?_⟩
              intro u hu2
              rcases List.mem_cons.mp hu2 with h1 | h1
              · rw [h1]
                show ¬ "true_scf_ecut" = k
                intro he; exact hk (he ▸ (by decide))
              · rcases List.mem_cons.mp h1 with h2 | h2
                · rw [h2]
                  show ¬ "true_scf_ecut_units" = k
                  intro he; exact hk (he ▸ (by decide))
                · simp at h2
  · rw [if_neg hm] at h
    obtain rfl := Except.ok.inj h
    exact ⟨rfl, rfl, fun k _ => rfl⟩

theorem sectGrid_chr {line : String} {st st' : ScanState}
    (h : sectGrid line st = .ok st') :
    st'.energies = st.energies ∧ st'.bands = st.bands ∧
    ∀ k, k ∉ generalSectKeys → dictFind st'.params k = dictFind st.params k := by
  unfold sectGrid at h
  by_cases hm : containsSub "Num. of grids of a-, b-, and c-axes" line
  · rw [if_pos hm] at h
    cases hw : getE (splitCore (fun c => c = '=') (trimC line.data)) 1 with
    | error e => rw [hw] at h; simp [exceptBindErr] at h
    | ok part =>
      rw [hw] at h
      simp only [exceptBindOk] at h
      cases hu : unpack3 (splitCore (fun c => c = ',') (trimC part)) with
      | error e => rw [hu] at h; simp [exceptBindErr] at h
      | ok t =>
        obtain ⟨a, b, c⟩ := t
        rw [hu] at h
        simp only [exceptBindOk] at h
        cases hfa : intE a with
        | error e => rw [hfa] at h; simp [exceptBindErr] at h
        | ok za =>
          rw [hfa] at h
          simp only [exceptBindOk] at h
          cases hfb : intE b with
          | error e => rw [hfb] at h; simp [exceptBindErr] at h
          | ok zb =>
            rw [hfb] at h
            simp only [exceptBindOk] at h
            cases hfc : intE c with
            | error e => rw [hfc] at h; simp [exceptBindErr] at h
            | ok zc =>
              rw [hfc] at h
              simp only [exceptBindOk, exceptPure] at h
              obtain rfl := Except.ok.inj h
              refine ⟨rfl, rfl, fun k hk => dictFind_applySets _ _ _ ?_⟩
              intro u hu2
              rcases List.mem_cons.mp hu2 with h1 | h1
              · rw [h1]
                show ¬ "3d_fft_grid" = k
                intro he; exact hk (he ▸ (by decide))
              · simp at h1
  · rw [if_neg hm] at h
    obtain rfl := Except.ok.inj h
    exact ⟨rfl, rfl, fun k _ => rfl⟩

theorem sectCellOpt_chr {lines : List String} {i : Nat} {line : String} {st st' : ScanState}
    (h : sectCellOpt lines i line st = .ok st') :
    st'.energies = st.energies ∧ st'.bands = st.bands ∧
    ∀ k, k ∉ generalSectKeys → dictFind st'.params k = dictFind st.params k := by
  unfold sectCellOpt at h
  by_cases hm : containsSub "History of cell optimization" line
  · rw [if_pos hm] at h
    cases hf : findFrom (fun l => containsSub "*" l) lines (i + 7) with
    | error e => rw [hf] at h; simp [exceptBindErr] at h
    | ok stop =>
      rw [hf] at h
      simp only [exceptBindOk] at h
      cases hmm : (sliceLines lines (i + 7) (stop - 1)).mapM (fun l => do
          let (_, s1, s2, s3, s4, s5, s6) ← unpack7 (lineWords l)
          let _ ← floatE s1
          let _ ← floatE s2
          let _ ← floatE s3
          let _ ← floatE s4
          let _ ← floatE s5
          let _ ← floatE s6
          pure ()) with
      | error e => rw [hmm] at h; simp [exceptBindErr] at h
      | ok us =>
        rw [hmm] at h
        simp only [exceptBindOk, exceptPure] at h
        obtain rfl := Except.ok.inj h
        exact ⟨rfl, rfl, fun k _ => rfl⟩
  · rw [if_neg hm] at h
    obtain rfl := Except.ok.inj h
    exact ⟨rfl, rfl, fun k _ => rfl⟩

theorem sectFrac_chr {lines : List String} {i : Nat} {line : String} {st st' : ScanState}
    (h : sectFrac lines i line st = .ok st') :
    st'.energies = st.energies ∧ st'.bands = st.bands ∧
    ∀ k, k ∉ generalSectKeys → dictFind st'.params k = dictFind st.params k := by
  unfold sectFrac at h
  by_cases hm : containsSub "Fractional coordinates of the final structure" line
  · rw [if_pos hm] at h
    cases hf : findFrom (fun l => containsSub "*" l) lines (i + 4) with
    | error e => rw [hf] at h; simp [exceptBindErr] at h
    | ok stop =>
      rw [hf] at h
      simp only [exceptBindOk] at h
      cases hmm : (sliceLines lines (i + 4) (stop - 1)).mapM (fun l => do
          let ws := (lineWords l).drop 1
          let (_, x, y, z) ← unpack4 ws
          let _ ← floatE x
          let _ ← floatE y
          let _ ← floatE z
          pure ()) with
      | error e => rw [hmm] at h; simp [exceptBindErr] at h
      | ok us =>
        rw [hmm] at h
        simp only [exceptBindOk, exceptPure] at h
        obtain rfl := Except.ok.inj h
        exact ⟨rfl, rfl, fun k _ => rfl⟩
  · rw [if_neg hm] at h
    obtain rfl := Except.ok.inj h
    exact ⟨rfl, rfl, fun k _ => rfl⟩

theorem appendVals_nil (d : List (String × List ℚ)) : appendVals d [] = d := by
  unfold appendVals
  simp

theorem sectEnergy_chr {lines : List String} {i : Nat} {line : String} {st st' : ScanState}
    (h : sectEnergy lines i line st = .ok st') :
    st'.bands = st.bands ∧ (∀ k, dictFind st'.params k = dictFind st.params k) ∧
    st'.energies = appendVals st.energies (energyValsOf lines i line) := by
  unfold sectEnergy at h
  by_cases hm : energyMarker line
  · rw [if_pos hm] at h
    cases hv : energyBlockVals lines i with
    | error e => rw [hv] at h; cases h
    | ok vals =>
      rw [hv] at h
      obtain rfl := Except.ok.inj h
      refine ⟨rfl, fun k => rfl, ?_⟩
      unfold energyValsOf
      rw [if_pos hm, hv]
  · rw [if_neg hm] at h
    obtain rfl := Except.ok.inj h
    refine ⟨rfl, fun k => rfl, ?_⟩
    unfold energyValsOf
    rw [if_neg hm, appendVals_nil]

theorem sectEigen_chr {lines : List String} {i : Nat} {line : String} {st st' : ScanState}
    (h : sectEigen lines i line st = .ok st') :
    st'.energies = st.energies ∧ (∀ k, dictFind st'.params k = dictFind st.params k) ∧
    (eigenMarker line = false → st'.bands = st.bands) := by
  unfold sectEigen at h
  by_cases hm : eigenMarker line
  · rw [if_pos hm] at h
    cases hv : eigenBlockData lines i with
    | error e => rw [hv] at h; cases h
    | ok b =>
      rw [hv] at h
      obtain rfl := Except.ok.inj h
      exact ⟨rfl, fun k => rfl, fun habs => by rw [hm] at habs; cases habs⟩
  · rw [if_neg hm] at h
    obtain rfl := Except.ok.inj h
    exact ⟨rfl, fun k => rfl, fun _ => rfl⟩

theorem sectCellVec_chr {lines : List String} {i : Nat} {line : String} {st st' : ScanState}
    (h : sectCellVec lines i line st = .ok st') :
    st'.energies = st.energies ∧ st'.bands = st.bands ∧
    ∀ k, k ∉ generalSectKeys → dictFind st'.params k = dictFind st.params k := by
  unfold sectCellVec at h
  by_cases hm : containsSub "Cell vectors (Ang.) and derivatives of total energy" line
  · rw [if_pos hm] at h
    cases hf : findFrom (fun l => containsSub "*" l) lines (i + 4) with
    | error e => rw [hf] at h; simp [exceptBindErr] at h
    | ok stop =>
      rw [hf] at h
      simp only [exceptBindOk] at h
      cases hmm : (sliceLines lines (i + 4) stop).mapM cellVecLine with
      | error e => rw [hmm] at h; simp [exceptBindErr] at h
      | ok rows =>
        rw [hmm] at h
        simp only [exceptBindOk, exceptPure] at h
        obtain rfl := Except.ok.inj h
        refine ⟨rfl, rfl, fun k hk => dictFind_applySets _ _ _ ?_⟩
        intro u hu2
        rcases List.mem_cons.mp hu2 with h1 | h1
        · rw [h1]
          show ¬ "final_de_dcell" = k
          intro he; exact hk (he ▸ (by decide))
        · rcases List.mem_cons.mp h1 with h2 | h2
          · rw [h2]
            show ¬ "final_de_dcell_units" = k
            intro he; exact hk (he ▸ (by decide))
          · simp at h2
  · rw [if_neg hm] at h
    obtain rfl := Except.ok.inj h
    exact ⟨rfl, rfl, fun k _ => rfl⟩

theorem sectXyz_chr {lines : List String} {i : Nat} {line : String} {st st' : ScanState}
    (h : sectXyz lines i line st = .ok st') :
    st'.energies = st.energies ∧ st'.bands = st.bands ∧
    ∀ k, k ∉ generalSectKeys → dictFind st'.params k = dictFind st.params k := by
  unfold sectXyz at h
  by_cases hm : containsSub "xyz-coordinates (Ang.) and forces (Hartree/Bohr)" line
  · rw [if_pos hm] at h
    cases hf : findFrom (fun l => containsSub "coordinates.forces" l) lines (i + 6) with
    | error e => rw [hf] at h; simp [exceptBindErr] at h
    | ok stop =>
      rw [hf] at h
      simp only [exceptBindOk] at h
      cases hmm : (sliceLines lines (i + 6) stop).mapM xyzLine with
      | error e => rw [hmm] at h; simp [exceptBindErr] at h
      | ok rows =>
        rw [hmm] at h
        simp only [exceptBindOk, exceptPure] at h
        obtain rfl := Except.ok.inj h
        refine ⟨rfl, rfl, fun k hk => dictFind_applySets _ _ _ ?_⟩
        intro u hu2
        rcases List.mem_cons.mp hu2 with h1 | h1
        · rw [h1]
          show ¬ "final_forces" = k
          intro he; exact hk (he ▸ (by decide))
        · rcases List.mem_cons.mp h1 with h2 | h2
          · rw [h2]
            show ¬ "final_forces_units" = k
            intro he; exact hk (he ▸ (by decide))
          · simp at h2
  · rw [if_neg hm] at h
    obtain rfl := Except.ok.inj h
    exact ⟨rfl, rfl, fun k _ => rfl⟩

theorem dipole_fold_keys (dl : String) :
    ∀ (l : List (String × String)) (acc us : List (String × PVal)),
      (∀ p ∈ l, p.2 ∈ (["total_dipole", "core_dipole", "electron_dipole",
        "background_dipole"] : List String)) →
      (∀ u ∈ acc, u.1 ∈ generalSectKeys) →
      l.foldlM (fun acc p =>
        if containsSub p.1 dl then do
          let rest := trimC (replaceAllC p.1.data [] dl.data)
          let (dx, dy, dz) ← unpack3 (wordsC rest)
          let qx ← floatE dx
          let qy ← floatE dy
          let qz ← floatE dz
          pure (acc ++ [(p.2, PVal.numList [qx, qy, qz]), (p.2 ++ "_units", PVal.str "Debye")])
        else pure acc) acc = .ok us →
      ∀ u ∈ us, u.1 ∈ generalSectKeys := by
  intro l
  induction l with
  | nil =>
    intro acc us _ hacc hfold
    obtain rfl := Except.ok.inj hfold
    exact hacc
  | cons p rest ih =>
    intro acc us hl hacc hfold
    rw [List.foldlM_cons] at hfold
    have hlrest : ∀ x ∈ rest, x.2 ∈ (["total_dipole", "core_dipole", "electron_dipole",
        "background_dipole"] : List String) := fun x hx => hl x (List.mem_cons_of_mem _ hx)
    by_cases hc : containsSub p.1 dl
    · rw [if_pos hc] at hfold
      simp only [] at hfold
      cases hu : unpack3 (wordsC (trimC (replaceAllC p.1.data [] dl.data))) with
      | error e => rw [hu] at hfold; simp [exceptBindErr] at hfold
      | ok t =>
        obtain ⟨dx, dy, dz⟩ := t
        rw [hu] at hfold
        simp only [exceptBindOk] at hfold
        cases hx : floatE dx with
        | error e => rw [hx] at hfold; simp [exceptBindErr] at hfold
        | ok qx =>
          rw [hx] at hfold
          simp only [exceptBindOk] at hfold
          cases hy : floatE dy with
          | error e => rw [hy] at hfold; simp [exceptBindErr] at hfold
          | ok qy =>
            rw [hy] at hfold
            simp only [exceptBindOk] at hfold
            cases hz : floatE dz with
            | error e => rw [hz] at hfold; simp [exceptBindErr] at hfold
            | ok qz =>
              rw [hz] at hfold
              simp only [exceptBindOk, exceptPure] at hfold
              refine ih _ us hlrest ?_ hfold
              intro u hu2
              rcases List.mem_append.mp hu2 with h1 | h1
              · exact hacc u h1
              · have hp2 := hl p (List.mem_cons_self _ _)
                have hkeys : p.2 ∈ generalSectKeys ∧ (p.2 ++ "_units") ∈ generalSectKeys := by
                  rcases List.mem_cons.mp hp2 with h2 | h2
                  · rw [h2]; exact ⟨by decide, by decide⟩
                  · rcases List.mem_cons.mp h2 with h3 | h3
                    · rw [h3]; exact ⟨by decide, by decide⟩
                    · rcases List.mem_cons.mp h3 with h4 | h4
                      · rw [h4]; exact ⟨by decide, by decide⟩
                      · rcases List.mem_cons.mp h4 with h5 | h5
                        · rw [h5]; exact ⟨by decide, by decide⟩
                        · simp at h5
                rcases List.mem_cons.mp h1 with h2 | h2
                · rw [h2]; exact hkeys.1
                · rcases List.mem_cons.mp h2 with h3 | h3
                  · rw [h3]; exact hkeys.2
                  · simp at h3
    · rw [if_neg hc] at hfold
      simp only [exceptPure, exceptBindOk] at hfold
      exact ih _ us hlrest hacc hfold

theorem dipoleLineUpdates_keys {dl : String} {us : List (String × PVal)}
    (h : dipoleLineUpdates dl = .ok us) : ∀ u ∈ us, u.1 ∈ generalSectKeys := by
  unfold dipoleLineUpdates at h
  by_cases habs : containsSub "Absolute D" dl
  · rw [if_pos habs] at h
    cases hw : getE (lineWords dl) 2 with
    | error e => rw [hw] at h; simp [exceptBindErr] at h
    | ok w =>
      rw [hw] at h
      simp only [exceptBindOk] at h
      cases hq : floatE w with
      | error e => rw [hq] at h; simp [exceptBindErr] at h
      | ok q =>
        rw [hq] at h
        simp only [exceptBindOk, exceptPure] at h
        obtain rfl := Except.ok.inj h
        intro u hu
        rcases List.mem_cons.mp hu with h1 | h1
        · rw [h1]
          show "abs_dipole_mom" ∈ generalSectKeys
          decide
        · rcases List.mem_cons.mp h1 with h2 | h2
          · rw [h2]
            show "abs_dipole_mom_units" ∈ generalSectKeys
            decide
          · simp at h2
  · rw [if_neg habs] at h
    exact dipole_fold_keys dl DIPOLE_NAME_MAPPING [] us (by decide) (by simp) h

theorem mapM_ok_forall {f : α → Except PyErr β} {P : β → Prop}
    (hf : ∀ a b, f a = .ok b → P b) :
    ∀ (l : List α) (rs : List β), l.mapM f = .ok rs → ∀ r ∈ rs, P r := by
  intro l
  induction l with
  | nil =>
    intro rs h r hr
    obtain rfl := Except.ok.inj h
    simp at hr
  | cons a rest ih =>
    intro rs h r hr
    rw [List.mapM_cons] at h
    cases hfa : f a with
    | error e => rw [hfa] at h; simp [exceptBindErr] at h
    | ok b =>
      rw [hfa] at h
      simp only [exceptBindOk] at h
      cases hrest : rest.mapM f with
      | error e => rw [hrest] at h; simp [exceptBindErr] at h
      | ok bs =>
        rw [hrest] at h
        simp only [exceptBindOk, exceptPure] at h
        obtain rfl := Except.ok.inj h
        rcases List.mem_cons.mp hr with h1 | h1
        · rw [h1]; exact hf a b hfa
        · exact ih bs hrest r h1

theorem sectDipole_chr {lines : List String} {i : Nat} {line : String} {st st' : ScanState}
    (h : sectDipole lines i line st = .ok st') :
    st'.energies = st.energies ∧ st'.bands = st.bands ∧
    ∀ k, k ∉ generalSectKeys → dictFind st'.params k = dictFind st.params k := by
  unfold sectDipole at h
  by_cases hm : containsSub "Dipole moment (Debye)" line
  · rw [if_pos hm] at h
    cases hf : findFrom (fun l => containsSub "*" l) lines (i + 4) with
    | error e => rw [hf] at h; simp [exceptBindErr] at h
    | ok stop =>
      rw [hf] at h
      simp only [exceptBindOk] at h
      cases hmm : (sliceLines lines (i + 4) stop).mapM dipoleLineUpdates with
      | error e => rw [hmm] at h; simp [exceptBindErr] at h
      | ok upds =>
        rw [hmm] at h
        simp only [exceptBindOk, exceptPure] at h
        obtain rfl := Except.ok.inj h
        refine ⟨rfl, rfl, fun k hk => dictFind_applySets _ _ _ ?_⟩
        have hall : ∀ us ∈ upds, ∀ u ∈ us, u.1 ∈ generalSectKeys :=
          mapM_ok_forall (fun a b hab => dipoleLineUpdates_keys hab) _ upds hmm
        intro u hu2
        rcases List.mem_join.mp hu2 with ⟨us, hus, hu3⟩
        intro he
        exact hk (he ▸ hall us hus u hu3)
  · rw [if_neg hm] at h
    obtain rfl := Except.ok.inj h
    exact ⟨rfl, rfl, fun k _ => rfl⟩

theorem sectTiming_not_marker {lines : List String} {i : Nat} {line : String}
    {st : ScanState} (hm : timingMarker line = false) :
    sectTiming lines i line st = .ok st := by
  unfold sectTiming
  rw [if_neg]
  intro hc
  rw [show containsSub "Computational Time (second)" line = timingMarker line from rfl, hm]
    at hc
  cases hc

theorem timingRoutineUpd_nil (markerLine tl : String)
    (h : ∀ p ∈ TIMING_NAME_MAPPING, containsSub p.1 markerLine = false) :
    timingRoutineUpd markerLine tl = .ok [] := by
  unfold timingRoutineUpd
  suffices hgen : ∀ (l : List (String × String)) (acc : List (String × PVal)),
      (∀ p ∈ l, containsSub p.1 markerLine = false) →
      l.foldlM (fun acc p =>
        if containsSub p.1 markerLine then do
          let part ← getE (splitCore (fun c => c = '=') (trimC tl.data)) 1
          let (a, b, c, d) ← unpack4 (wordsC (trimC part))
          let minId ← intE a
          let minTime ← floatE b
          let maxId ← intE c
          let maxTime ← floatE d
          pure (acc ++ [(p.2, PVal.timingRec minId minTime maxId maxTime),
                        (p.2 ++ "_units", PVal.str "s")])
        else pure acc) acc = .ok acc by
    exact hgen TIMING_NAME_MAPPING [] h
  intro l
  induction l with
  | nil => intro acc _; rfl
  | cons p rest ih =>
    intro acc hl
    rw [List.foldlM_cons]
    rw [if_neg (by rw [hl p (List.mem_cons_self _ _)]; simp)]
    simp only [exceptPure, exceptBindOk]
    exact ih acc (fun x hx => hl x (List.mem_cons_of_mem _ hx))

theorem mapM_timing_nil (markerLine : String)
    (h : ∀ p ∈ TIMING_NAME_MAPPING, containsSub p.1 markerLine = false) :
    ∀ (l : List String), l.mapM (timingRoutineUpd markerLine)
      = .ok (l.map (fun _ => [])) := by
  intro l
  induction l with
  | nil => rfl
  | cons tl rest ih =>
    rw [List.mapM_cons, timingRoutineUpd_nil markerLine tl h]
    simp only [exceptBindOk]
    rw [ih]
    simp only [exceptBindOk, exceptPure]
    rfl

theorem join_map_nil (l : List String) : (l.map (fun _ => ([] : List (String × PVal)))).join = [] := by
  induction l with
  | nil => rfl
  | cons a rest ih => simp [ih]

theorem sectTiming_chr {lines : List String} {i : Nat} {line : String} {st st' : ScanState}
    (h : sectTiming lines i line st = .ok st')
    (hline : timingMarker line = true → ∀ p ∈ TIMING_NAME_MAPPING,
      containsSub p.1 line = false) :
    st'.energies = st.energies ∧ st'.bands = st.bands ∧
    ∀ k, k ≠ "elapsed_time" → k ≠ "elapsed_time_units" →
      dictFind st'.params k = dictFind st.params k := by
  unfold sectTiming at h
  by_cases hm : containsSub "Computational Time (second)" line
  · have hkeys := hline hm
    rw [if_pos hm] at h
    cases hel : getE lines (i + 4) with
    | error e => rw [hel] at h; simp [exceptBindErr] at h
    | ok el =>
      rw [hel] at h
      simp only [exceptBindOk] at h
      cases hw : getE (lineWords el) 1 with
      | error e => rw [hw] at h; simp [exceptBindErr] at h
      | ok w =>
        rw [hw] at h
        simp only [exceptBindOk] at h
        cases hq : floatE w with
        | error e => rw [hq] at h; simp [exceptBindErr] at h
        | ok q =>
          rw [hq] at h
          simp only [exceptBindOk] at h
          rw [mapM_timing_nil line hkeys] at h
          simp only [exceptBindOk, exceptPure] at h
          obtain rfl := Except.ok.inj h
          refine ⟨rfl, rfl, fun k hk1 hk2 => ?_⟩
          rw [join_map_nil]
          refine dictFind_dictMerge _ _ _ ?_
          intro u hu
          rcases List.mem_append.mp hu with h1 | h1
          · rcases List.mem_cons.mp h1 with h2 | h2
            · rw [h2]
              show ¬ "elapsed_time" = k
              intro he; exact hk1 he.symm
            · rcases List.mem_cons.mp h2 with h3 | h3
              · rw [h3]
                show ¬ "elapsed_time_units" = k
                intro he; exact hk2 he.symm
              · simp at h3
          · simp at h1
  · rw [if_neg hm] at h
    obtain rfl := Except.ok.inj h
    exact ⟨rfl, rfl, fun k _ _ => rfl⟩


theorem sectTiming_eb {lines : List String} {i : Nat} {line : String} {st st' : ScanState}
    (h : sectTiming lines i line st = .ok st') :
    st'.energies = st.energies ∧ st'.bands = st.bands := by
  unfold sectTiming at h
  by_cases hm : containsSub "Computational Time (second)" line
  · rw [if_pos hm] at h
    cases hel : getE lines (i + 4) with
    | error e => rw [hel] at h; simp [exceptBindErr] at h
    | ok el =>
      rw [hel] at h
      simp only [exceptBindOk] at h
      cases hw : getE (lineWords el) 1 with
      | error e => rw [hw] at h; simp [exceptBindErr] at h
      | ok w =>
        rw [hw] at h
        simp only [exceptBindOk] at h
        cases hq : floatE w with
        | error e => rw [hq] at h; simp [exceptBindErr] at h
        | ok q =>
          rw [hq] at h
          simp only [exceptBindOk] at h
          cases hmm : (sliceLines lines (i + 5) lines.length).mapM (timingRoutineUpd line) with
          | error e => rw [hmm] at h; simp [exceptBindErr] at h
          | ok upds =>
            rw [hmm] at h
            simp only [exceptBindOk, exceptPure] at h
            obtain rfl := Except.ok.inj h
            exact ⟨rfl, rfl⟩
  · rw [if_neg hm] at h
    obtain rfl := Except.ok.inj h
    exact ⟨rfl, rfl⟩

theorem appendVals_append (d : List (String × List ℚ)) (a b : List (String × ℚ)) :
    appendVals (appendVals d a) b = appendVals d (a ++ b) := by
  induction d with
  | nil => rfl
  | cons p rest ih =>
    unfold appendVals at ih ⊢
    simp only [List.map_cons, List.cons.injEq]
    constructor
    · simp [List.filter_append, List.append_assoc]
    · simp [ih]

theorem processLine_eb {lines : List String} {i : Nat} {line : String} {st st' : ScanState}
    (h : processLine lines st i line = .ok st') :
    st'.energies = appendVals st.energies (energyValsOf lines i line) ∧
    (eigenMarker line = false → st'.bands = st.bands) := by
  unfold processLine at h
  cases h1 : sectVersion line st with
  | error e => rw [h1] at h; simp [exceptBindErr] at h
  | ok st1 =>
    rw [h1] at h
    simp only [exceptBindOk] at h
    cases h2 : sectMpi line st1 with
    | error e => rw [h2] at h; simp [exceptBindErr] at h
    | ok st2 =>
      rw [h2] at h
      simp only [exceptBindOk] at h
      cases h3 : sectOmp line st2 with
      | error e => rw [h3] at h; simp [exceptBindErr] at h
      | ok st3 =>
        rw [h3] at h
        simp only [exceptBindOk] at h
        cases h4 : sectCutoff line st3 with
        | error e => rw [h4] at h; simp [exceptBindErr] at h
        | ok st4 =>
          rw [h4] at h
          simp only [exceptBindOk] at h
          cases h5 : sectGrid line st4 with
          | error e => rw [h5] at h; simp [exceptBindErr] at h
          | ok st5 =>
            rw [h5] at h
            simp only [exceptBindOk] at h
            cases h6 : sectEnergy lines i line st5 with
            | error e => rw [h6] at h; simp [exceptBindErr] at h
            | ok st6 =>
              rw [h6] at h
              simp only [exceptBindOk] at h
              cases h7 : sectEigen lines i line st6 with
              | error e => rw [h7] at h; simp [exceptBindErr] at h
              | ok st7 =>
                rw [h7] at h
                simp only [exceptBindOk] at h
                cases h8 : sectCellOpt lines i line st7 with
                | error e => rw [h8] at h; simp [exceptBindErr] at h
                | ok st8 =>
                  rw [h8] at h
                  simp only [exceptBindOk] at h
                  cases h9 : sectDipole lines i line st8 with
                  | error e => rw [h9] at h; simp [exceptBindErr] at h
                  | ok st9 =>
                    rw [h9] at h
                    simp only [exceptBindOk] at h
                    cases h10 : sectCellVec lines i line st9 with
                    | error e => rw [h10] at h; simp [exceptBindErr] at h
                    | ok st10 =>
                      rw [h10] at h
                      simp only [exceptBindOk] at h
                      cases h11 : sectXyz lines i line st10 with
                      | error e => rw [h11] at h; simp [exceptBindErr] at h
                      | ok st11 =>
                        rw [h11] at h
                        simp only [exceptBindOk] at h
                        cases h12 : sectFrac lines i line st11 with
                        | error e => rw [h12] at h; simp [exceptBindErr] at h
                        | ok st12 =>
                          rw [h12] at h
                          simp only [exceptBindOk] at h
                          obtain ⟨hE1, hB1, hP1⟩ := sectVersion_chr h1
                          obtain ⟨hE2, hB2, hP2⟩ := sectMpi_chr h2
                          obtain ⟨hE3, hB3, hP3⟩ := sectOmp_chr h3
                          obtain ⟨hE4, hB4, hP4⟩ := sectCutoff_chr h4
                          obtain ⟨hE5, hB5, hP5⟩ := sectGrid_chr h5
                          obtain ⟨hB6, hP6, hE6⟩ := sectEnergy_chr h6
                          obtain ⟨hE7, hP7, hB7⟩ := sectEigen_chr h7
                          obtain ⟨hE8, hB8, hP8⟩ := sectCellOpt_chr h8
                          obtain ⟨hE9, hB9, hP9⟩ := sectDipole_chr h9
                          obtain ⟨hE10, hB10, hP10⟩ := sectCellVec_chr h10
                          obtain ⟨hE11, hB11, hP11⟩ := sectXyz_chr h11
                          obtain ⟨hE12, hB12, hP12⟩ := sectFrac_chr h12
                          obtain ⟨hE13, hB13⟩ := sectTiming_eb h
                          refine ⟨?_, ?_⟩
                          · rw [hE13, hE12, hE11, hE10, hE9, hE8, hE7, hE6, hE5, hE4, hE3, hE2, hE1]
                          · intro hEM
                            rw [hB13, hB12, hB11, hB10, hB9, hB8, hB7 hEM, hB6, hB5, hB4, hB3, hB2, hB1]

theorem processLine_params {lines : List String} {i : Nat} {line : String} {st st' : ScanState}
    (h : processLine lines st i line = .ok st')
    (hline : timingMarker line = true → ∀ p ∈ TIMING_NAME_MAPPING,
      containsSub p.1 line = false) :
    ∀ k, k ∉ generalSectKeys →
      (timingMarker line = false ∨ (k ≠ "elapsed_time" ∧ k ≠ "elapsed_time_units")) →
      dictFind st'.params k = dictFind st.params k := by
  unfold processLine at h
  cases h1 : sectVersion line st with
  | error e => rw [h1] at h; simp [exceptBindErr] at h
  | ok st1 =>
    rw [h1] at h
    simp only [exceptBindOk] at h
    cases h2 : sectMpi line st1 with
    | error e => rw [h2] at h; simp [exceptBindErr] at h
    | ok st2 =>
      rw [h2] at h
      simp only [exceptBindOk] at h
      cases h3 : sectOmp line st2 with
      | error e => rw [h3] at h; simp [exceptBindErr] at h
      | ok st3 =>
        rw [h3] at h
        simp only [exceptBindOk] at h
        cases h4 : sectCutoff line st3 with
        | error e => rw [h4] at h; simp [exceptBindErr] at h
        | ok st4 =>
          rw [h4] at h
          simp only [exceptBindOk] at h
          cases h5 : sectGrid line st4 with
          | error e => rw [h5] at h; simp [exceptBindErr] at h
          | ok st5 =>
            rw [h5] at h
            simp only [exceptBindOk] at h
            cases h6 : sectEnergy lines i line st5 with
            | error e => rw [h6] at h; simp [exceptBindErr] at h
            | ok st6 =>
              rw [h6] at h
              simp only [exceptBindOk] at h
              cases h7 : sectEigen lines i line st6 with
              | error e => rw [h7] at h; simp [exceptBindErr] at h
              | ok st7 =>
                rw [h7] at h
                simp only [exceptBindOk] at h
                cases h8 : sectCellOpt lines i line st7 with
                | error e => rw [h8] at h; simp [exceptBindErr] at h
                | ok st8 =>
                  rw [h8] at h
                  simp only [exceptBindOk] at h
                  cases h9 : sectDipole lines i line st8 with
                  | error e => rw [h9] at h; simp [exceptBindErr] at h
                  | ok st9 =>
                    rw [h9] at h
                    simp only [exceptBindOk] at h
                    cases h10 : sectCellVec lines i line st9 with
                    | error e => rw [h10] at h; simp [exceptBindErr] at h
                    | ok st10 =>
                      rw [h10] at h
                      simp only [exceptBindOk] at h
                      cases h11 : sectXyz lines i line st10 with
                      | error e => rw [h11] at h; simp [exceptBindErr] at h
                      | ok st11 =>
                        rw [h11] at h
                        simp only [exceptBindOk] at h
                        cases h12 : sectFrac lines i line st11 with
                        | error e => rw [h12] at h; simp [exceptBindErr] at h
                        | ok st12 =>
                          rw [h12] at h
                          simp only [exceptBindOk] at h
                          obtain ⟨hE1, hB1, hP1⟩ := sectVersion_chr h1
                          obtain ⟨hE2, hB2, hP2⟩ := sectMpi_chr h2
                          obtain ⟨hE3, hB3, hP3⟩ := sectOmp_chr h3
                          obtain ⟨hE4, hB4, hP4⟩ := sectCutoff_chr h4
                          obtain ⟨hE5, hB5, hP5⟩ := sectGrid_chr h5
                          obtain ⟨hB6, hP6, hE6⟩ := sectEnergy_chr h6
                          obtain ⟨hE7, hP7, hB7⟩ := sectEigen_chr h7
                          obtain ⟨hE8, hB8, hP8⟩ := sectCellOpt_chr h8
                          obtain ⟨hE9, hB9, hP9⟩ := sectDipole_chr h9
                          obtain ⟨hE10, hB10, hP10⟩ := sectCellVec_chr h10
                          obtain ⟨hE11, hB11, hP11⟩ := sectXyz_chr h11
                          obtain ⟨hE12, hB12, hP12⟩ := sectFrac_chr h12
                          intro k hk hdisj
                          have hrest : dictFind st12.params k = dictFind st.params k := by
                            rw [hP12 k hk, hP11 k hk, hP10 k hk, hP9 k hk, hP8 k hk, hP7 k, hP6 k,
                              hP5 k hk, hP4 k hk, hP3 k hk, hP2 k hk, hP1 k hk]
                          rcases hdisj with hmf | ⟨hk1, hk2⟩
                          · have hid : sectTiming lines i line st12 = .ok st12 :=
                              sectTiming_not_marker hmf
                            rw [hid] at h
                            obtain rfl := Except.ok.inj h
                            exact hrest
                          · obtain ⟨hE13, hB13, hP13⟩ := sectTiming_chr h hline
                            rw [hP13 k hk1 hk2]
                            exact hrest

theorem scanGo_energies (lines : List String) :
    ∀ (rest : List String) (i : Nat) (st st' : ScanState),
      scanGo lines st i rest = .ok st' →
      st'.energies = appendVals st.energies (energyJoin lines i rest) := by
  intro rest
  induction rest with
  | nil =>
    intro i st st' h
    obtain rfl := Except.ok.inj h
    rw [show energyJoin lines i [] = [] from rfl, appendVals_nil]
  | cons l rest2 ih =>
    intro i st st' h
    unfold scanGo at h
    cases hp : processLine lines st i l with
    | error e => rw [hp] at h; cases h
    | ok st2 =>
      rw [hp] at h
      have h2 := ih (i + 1) st2 st' h
      obtain ⟨hE, _⟩ := processLine_eb hp
      rw [h2, hE, appendVals_append]
      rfl

theorem scanGo_bands (lines : List String) :
    ∀ (rest : List String) (i : Nat) (st st' : ScanState),
      (∀ l ∈ rest, eigenMarker l = false) →
      scanGo lines st i rest = .ok st' → st'.bands = st.bands := by
  intro rest
  induction rest with
  | nil =>
    intro i st st' _ h
    obtain rfl := Except.ok.inj h
    rfl
  | cons l rest2 ih =>
    intro i st st' hm h
    unfold scanGo at h
    cases hp : processLine lines st i l with
    | error e => rw [hp] at h; cases h
    | ok st2 =>
      rw [hp] at h
      have h2 := ih (i + 1) st2 st' (fun x hx => hm x (List.mem_cons_of_mem _ hx)) h
      obtain ⟨_, hB⟩ := processLine_eb hp
      rw [h2, hB (hm l (List.mem_cons_self _ _))]

theorem scanGo_params (lines : List String) :
    ∀ (rest : List String) (i : Nat) (st st' : ScanState) (k : String),
      k ∉ generalSectKeys →
      (∀ l ∈ rest, timingMarker l = true → ∀ p ∈ TIMING_NAME_MAPPING,
        containsSub p.1 l = false) →
      (∀ l ∈ rest, timingMarker l = false ∨
        (k ≠ "elapsed_time" ∧ k ≠ "elapsed_time_units")) →
      scanGo lines st i rest = .ok st' →
      dictFind st'.params k = dictFind st.params k := by
  intro rest
  induction rest with
  | nil =>
    intro i st st' k _ _ _ h
    obtain rfl := Except.ok.inj h
    rfl
  | cons l rest2 ih =>
    intro i st st' k hk hml hdl h
    unfold scanGo at h
    cases hp : processLine lines st i l with
    | error e => rw [hp] at h; cases h
    | ok st2 =>
      rw [hp] at h
      have h2 := ih (i + 1) st2 st' k hk (fun x hx => hml x (List.mem_cons_of_mem _ hx))
        (fun x hx => hdl x (List.mem_cons_of_mem _ hx)) h
      rw [h2]
      exact processLine_params hp (hml l (List.mem_cons_self _ _)) k hk
        (hdl l (List.mem_cons_self _ _))

theorem energyJoin_no_marker (lines : List String) :
    ∀ (rest : List String) (i : Nat), (∀ l ∈ rest, energyMarker l = false) →
      energyJoin lines i rest = [] := by
  intro rest
  induction rest with
  | nil => intro i _; rfl
  | cons l rest2 ih =>
    intro i hm
    unfold energyJoin
    rw [ih (i + 1) (fun x hx => hm x (List.mem_cons_of_mem _ hx))]
    unfold energyValsOf
    rw [if_neg (by rw [hm l (List.mem_cons_self _ _)]; simp)]
    rfl

theorem energyJoin_append (lines : List String) :
    ∀ (a b : List String) (i : Nat),
      energyJoin lines i (a ++ b) = energyJoin lines i a ++ energyJoin lines (i + a.length) b := by
  intro a
  induction a with
  | nil => intro b i; simp [energyJoin]
  | cons l rest ih =>
    intro b i
    show energyValsOf lines i l ++ energyJoin lines (i + 1) (rest ++ b)
      = (energyValsOf lines i l ++ energyJoin lines (i + 1) rest)
        ++ energyJoin lines (i + (rest.length + 1)) b
    rw [ih b (i + 1), List.append_assoc]
    have hidx : i + 1 + rest.length = i + (rest.length + 1) := by omega
    rw [hidx]

theorem dictFind_appendVals (d : List (String × List ℚ)) (vals : List (String × ℚ))
    (name : String) :
    dictFind (appendVals d vals) name
      = (dictFind d name).map (fun l => l ++ (vals.filter (fun v => v.1 = name)).map Prod.snd) := by
  induction d with
  | nil => rfl
  | cons p rest ih =>
    unfold appendVals at ih ⊢
    unfold dictFind at ih ⊢
    simp only [List.map_cons]
    by_cases hp : p.1 = name
    · rw [List.find?_cons_of_pos _ (by simpa using hp),
        List.find?_cons_of_pos _ (by simpa using hp)]
      simp [hp]
    · rw [List.find?_cons_of_neg _ (by simpa using hp),
        List.find?_cons_of_neg _ (by simpa using hp)]
      exact ih

theorem appendVals_keys (d : List (String × List ℚ)) (vals : List (String × ℚ)) :
    (appendVals d vals).map Prod.fst = d.map Prod.fst := by
  unfold appendVals
  rw [List.map_map]
  rfl

theorem append_units_ne (s : String) : s ++ "_units" ≠ s := by
  intro h
  have := congrArg String.length h
  rw [String.length_append] at this
  have h6 : ("_units" : String).length = 6 := by decide
  omega

theorem dictFind_mem {d : List (String × α)} {k : String} {v : α}
    (h : dictFind d k = some v) : (k, v) ∈ d := by
  unfold dictFind at h
  cases hf : List.find? (fun p => p.1 = k) d with
  | none => rw [hf] at h; cases h
  | some p =>
    rw [hf] at h
    have hp1 : p.1 = k := by simpa using List.find?_some hf
    have hp2 : p.2 = v := by simpa using h
    have hmem := List.mem_of_find?_eq_some hf
    rw [← hp1, ← hp2]
    simpa using hmem

theorem summaryFold_preserve :
    ∀ (pairs : List (String × List ℚ)) (params params' : List (String × PVal)) (k : String),
      summaryFold params pairs = .ok params' →
      (∀ p ∈ pairs, p.1 ≠ k ∧ p.1 ++ "_units" ≠ k) →
      dictFind params' k = dictFind params k := by
  intro pairs
  induction pairs with
  | nil =>
    intro params params' k h _
    obtain rfl := Except.ok.inj h
    rfl
  | cons p rest ih =>
    intro params params' k h hk
    obtain ⟨n, vals⟩ := p
    unfold summaryFold at h
    cases hl : vals.getLast? with
    | none => rw [hl] at h; cases h
    | some v =>
      rw [hl] at h
      have h2 := ih _ params' k h (fun x hx => hk x (List.mem_cons_of_mem _ hx))
      rw [h2]
      obtain ⟨hn1, hn2⟩ := hk (n, vals) (List.mem_cons_self _ _)
      rw [dictFind_dictSet_ne _ _ _ _ hn2, dictFind_dictSet_ne _ _ _ _ hn1]

theorem summaryFold_find :
    ∀ (pairs : List (String × List ℚ)) (params params' : List (String × PVal))
      (aname : String) (l : List ℚ) (v : ℚ),
      summaryFold params pairs = .ok params' →
      (aname, l) ∈ pairs →
      l.getLast? = some v →
      (pairs.map Prod.fst).Nodup →
      (∀ p ∈ pairs, p.1 ++ "_units" ≠ aname) →
      dictFind params' aname = some (.num v) := by
  intro pairs
  induction pairs with
  | nil =>
    intro params params' aname l v _ hmem _ _ _
    simp at hmem
  | cons p rest ih =>
    intro params params' aname l v h hmem hlast hnodup hunits
    obtain ⟨n, vals⟩ := p
    unfold summaryFold at h
    cases hl : vals.getLast? with
    | none => rw [hl] at h; cases h
    | some v0 =>
      rw [hl] at h
      rcases List.mem_cons.mp hmem with h1 | h1
      · obtain ⟨hn, hv⟩ : aname = n ∧ l = vals := by
          injection h1 with ha hb
          exact ⟨ha, hb⟩
        subst hn
        subst hv
        rw [hlast] at hl
        obtain rfl := Option.some.inj hl
        have hpres : dictFind params' aname = dictFind
            (dictSet (dictSet params aname (.num v)) (aname ++ "_units") (.str "eV")) aname := by
          refine summaryFold_preserve rest _ _ aname h ?_
          intro x hx
          constructor
          · intro he
            have hcomp : (∀ (y : List ℚ), (aname, y) ∉ rest) ∧ (rest.map Prod.fst).Nodup := by
              simpa using hnodup
            refine hcomp.1 x.2 ?_
            rw [← he]
            simpa using hx
          · exact hunits x (List.mem_cons_of_mem _ hx)
        rw [hpres, dictFind_dictSet_ne _ _ _ _ (append_units_ne aname), dictFind_dictSet_self]
      · refine ih _ params' aname l v h h1 hlast (List.nodup_cons.mp hnodup).2
          (fun x hx => hunits x (List.mem_cons_of_mem _ hx))

theorem exceptBind_ok_iff {e : Except PyErr α} {f : α → Except PyErr β} {b : β} :
    (e >>= f) = .ok b ↔ ∃ a, e = .ok a ∧ f a = .ok b := by
  cases e with
  | error er => simp [exceptBindErr]
  | ok a => simp [exceptBindOk]

theorem exceptMapOk (f : α → β) (a : α) :
    (f <$> (Except.ok a : Except PyErr α)) = .ok (f a) := rfl

theorem exceptMapErr (f : α → β) (e : PyErr) :
    (f <$> (Except.error e : Except PyErr α)) = .error e := rfl

theorem exceptMap_ok_iff {e : Except PyErr α} {f : α → β} {b : β} :
    (f <$> e) = .ok b ↔ ∃ a, e = .ok a ∧ f a = b := by
  cases e with
  | error er => simp [exceptMapErr]
  | ok a => simp [exceptMapOk]

theorem finishPhase_params_eq {md : String} {kinds : List (String × String)}
    {cell : List (List ℚ)} {st : ScanState} {out : ParseOut}
    (h : finishPhase md kinds cell st = .ok out) :
    ∃ params1 b eF nS,
      summaryFold st.params st.energies = .ok params1 ∧
      st.bands = some b ∧ b.e_fermi.getLast? = some eF ∧ b.n_states.getLast? = some nS ∧
      out.params = dictSet (dictSet (dictSet params1 "e_fermi" (.num eF))
        "e_fermi_units" (.str "eV")) "n_states" (.num nS) := by
  unfold finishPhase at h
  rw [exceptBind_ok_iff] at h
  obtain ⟨params1, hs, h⟩ := h
  rw [exceptBind_ok_iff] at h
  obtain ⟨b, hbm, h⟩ := h
  have hb : st.bands = some b := by
    cases hbb : st.bands with
    | none => rw [hbb] at hbm; cases hbm
    | some b0 =>
      rw [hbb] at hbm
      obtain rfl := Except.ok.inj hbm
      rfl
  rw [exceptBind_ok_iff] at h
  obtain ⟨eF, heFm, h⟩ := h
  have heF : b.e_fermi.getLast? = some eF := by
    cases hgl : b.e_fermi.getLast? with
    | none => rw [hgl] at heFm; cases heFm
    | some x =>
      rw [hgl] at heFm
      simp [liftO] at heFm
      rw [heFm]
  rw [exceptBind_ok_iff] at h
  obtain ⟨nS, hnSm, h⟩ := h
  have hnS : b.n_states.getLast? = some nS := by
    cases hgl : b.n_states.getLast? with
    | none => rw [hgl] at hnSm; cases hnSm
    | some x =>
      rw [hgl] at hnSm
      simp [liftO] at hnSm
      rw [hnSm]
  refine ⟨params1, b, eF, nS, hs, hb, heF, hnS, ?_⟩
  by_cases hmd : md = "nomd"
  · rw [if_pos hmd] at h
    obtain rfl := Except.ok.inj h
    rfl
  · rw [if_neg hmd] at h
    simp only [] at h
    by_cases hopt : optcMdTypes.contains md = true
    · rw [if_pos hopt] at h
      cases hcv : st.finalCellVectors with
      | none => rw [hcv] at h; simp [exceptBindErr] at h
      | some cl =>
        rw [hcv] at h
        simp only [exceptBindOk] at h
        cases hcart : st.finalCartCoords with
        | none => rw [hcart] at h; simp [exceptBindErr] at h
        | some cart =>
          rw [hcart] at h
          simp only [exceptBindOk] at h
          rw [exceptBind_ok_iff] at h
          obtain ⟨atoms, _, h⟩ := h
          simp only [exceptPure] at h
          obtain h := Except.ok.inj h
          subst h
          rfl
    · rw [if_neg hopt] at h
      simp only [exceptBindOk] at h
      cases hcart : st.finalCartCoords with
      | none => rw [hcart] at h; simp [exceptBindErr] at h
      | some cart =>
        rw [hcart] at h
        simp only [exceptBindOk] at h
        rw [exceptBind_ok_iff] at h
        obtain ⟨atoms, _, h⟩ := h
        simp only [exceptPure] at h
        obtain h := Except.ok.inj h
        subst h
        rfl

theorem finishPhase_energy_find {md : String} {kinds : List (String × String)}
    {cell : List (List ℚ)} {st : ScanState} {out : ParseOut}
    (h : finishPhase md kinds cell st = .ok out)
    (hkeys : st.energies.map Prod.fst = ENERGY_NAME_MAPPING.map Prod.snd)
    {aname : String} {l : List ℚ} {v : ℚ}
    (hfind : dictFind st.energies aname = some l) (hlast : l.getLast? = some v) :
    dictFind out.params aname = some (.num v) := by
  obtain ⟨params1, b, eF, nS, hs, hb, heF, hnS, hout⟩ := finishPhase_params_eq h
  have hmem := dictFind_mem hfind
  have haname : aname ∈ ENERGY_NAME_MAPPING.map Prod.snd := by
    rw [← hkeys]
    exact List.mem_map_of_mem Prod.fst hmem
  have hno : ∀ a ∈ ENERGY_NAME_MAPPING.map Prod.snd,
      a ≠ "e_fermi" ∧ a ≠ "e_fermi_units" ∧ a ≠ "n_states" := by decide
  obtain ⟨hne1, hne2, hne3⟩ := hno aname haname
  rw [hout, dictFind_dictSet_ne _ _ _ _ (Ne.symm hne3),
    dictFind_dictSet_ne _ _ _ _ (Ne.symm hne2), dictFind_dictSet_ne _ _ _ _ (Ne.symm hne1)]
  refine summaryFold_find st.energies st.params params1 aname l v hs hmem hlast ?_ ?_
  · rw [hkeys]
    decide
  · intro p hp
    have hp1 : p.1 ∈ ENERGY_NAME_MAPPING.map Prod.snd := by
      rw [← hkeys]
      exact List.mem_map_of_mem Prod.fst hp
    exact (by decide : ∀ a ∈ ENERGY_NAME_MAPPING.map Prod.snd,
      ∀ bb ∈ ENERGY_NAME_MAPPING.map Prod.snd, a ++ "_units" ≠ bb) p.1 hp1 aname haname

theorem finishPhase_params_preserve {md : String} {kinds : List (String × String)}
    {cell : List (List ℚ)} {st : ScanState} {out : ParseOut} {k : String}
    (h : finishPhase md kinds cell st = .ok out)
    (hkeys : st.energies.map Prod.fst = ENERGY_NAME_MAPPING.map Prod.snd)
    (hk : ∀ a ∈ ENERGY_NAME_MAPPING.map Prod.snd, a ≠ k ∧ a ++ "_units" ≠ k)
    (hk2 : k ≠ "e_fermi") (hk3 : k ≠ "e_fermi_units") (hk4 : k ≠ "n_states") :
    dictFind out.params k = dictFind st.params k := by
  obtain ⟨params1, b, eF, nS, hs, hb, heF, hnS, hout⟩ := finishPhase_params_eq h
  rw [hout, dictFind_dictSet_ne _ _ _ _ (Ne.symm hk4),
    dictFind_dictSet_ne _ _ _ _ (Ne.symm hk3), dictFind_dictSet_ne _ _ _ _ (Ne.symm hk2)]
  refine summaryFold_preserve st.energies st.params params1 k hs ?_
  intro p hp
  have hp1 : p.1 ∈ ENERGY_NAME_MAPPING.map Prod.snd := by
    rw [← hkeys]
    exact List.mem_map_of_mem Prod.fst hp
  exact hk p.1 hp1

theorem summaryFold_energiesInit (params : List (String × PVal)) :
    summaryFold params energiesInit = .error .indexError := rfl

theorem finishPhase_energiesInit {md : String} {kinds : List (String × String)}
    {cell : List (List ℚ)} {st : ScanState} (he : st.energies = energiesInit) :
    finishPhase md kinds cell st = .error .indexError := by
  unfold finishPhase
  rw [he, summaryFold_energiesInit]
  rfl

theorem finishPhase_bands_none {md : String} {kinds : List (String × String)}
    {cell : List (List ℚ)} {st : ScanState} (hb : st.bands = none) :
    ∃ e, finishPhase md kinds cell st = .error e := by
  unfold finishPhase
  cases hs : summaryFold st.params st.energies with
  | error e =>
    refine ⟨e, ?_⟩
    rfl
  | ok params1 =>
    refine ⟨.nameError, ?_⟩
    simp only [exceptBindOk]
    rw [hb]
    rfl

/-! ### C8: missing energy or eigenvalue marker -/

theorem getLast_append_right {α : Type} (P Q : List α) (v : α)
    (h : Q.getLast? = some v) : (P ++ Q).getLast? = some v := by
  rw [List.getLast?_append, h]
  rfl

theorem dictFind_energiesInit_mem :
    ∀ (l : List (String × String)) (a : String), a ∈ l.map Prod.snd →
      dictFind (l.map (fun p => (p.2, ([] : List ℚ)))) a = some [] := by
  intro l
  induction l with
  | nil => intro a h; simp at h
  | cons p rest ih =>
    intro a h
    simp only [List.map_cons, List.mem_cons] at h
    unfold dictFind
    simp only [List.map_cons]
    by_cases hp : p.2 = a
    · rw [List.find?_cons_of_pos _ (by simpa using hp)]
      rfl
    · rw [List.find?_cons_of_neg _ (by simpa using hp)]
      rcases h with h1 | h1
      · exact absurd h1.symm hp
      · have := ih a h1
        unfold dictFind at this
        exact this

/-- C8: `_parse_stdout` presupposes the energy-components and eigenvalues
blocks: on a report lacking the `'Total energy (Hartree) at MD'` marker it
aborts with the `IndexError` of `value[-1]` on a never-filled energy list,
and on a report lacking the `'Eigenvalues (Hartree) of SCF KS-eq.'` marker
it aborts with the `NameError` of the never-assigned `bands` local — in
both cases an uncaught exception, never a typed failure result. -/
theorem c8_missing_marker_exception (md : String) (kinds : List (String × String))
    (cell : List (List ℚ)) (lines : List String)
    (h : (∀ l ∈ lines, energyMarker l = false) ∨ (∀ l ∈ lines, eigenMarker l = false)) :
    ∃ e, _parse_stdout md kinds cell lines = .error e := by
  unfold _parse_stdout
  cases hscan : scanGo lines initState 0 lines with
  | error e => exact ⟨e, rfl⟩
  | ok st =>
    show ∃ e, finishPhase md kinds cell st = .error e
    rcases h with hE | hB
    · have h1 := scanGo_energies lines lines 0 initState st hscan
      rw [energyJoin_no_marker lines lines 0 hE, appendVals_nil] at h1
      exact ⟨.indexError, finishPhase_energiesInit (h1.trans rfl)⟩
    · have h2 := scanGo_bands lines lines 0 initState st hB hscan
      exact finishPhase_bands_none (h2.trans rfl)

/-- Concrete instance of the C8 theorem: a one-line report with no energy
marker makes the parser abort with an exception. -/
theorem c8_missing_marker_exception_witness :
    (∀ l ∈ ["dummy line"], energyMarker l = false) ∧
    ∃ e, _parse_stdout "nomd" [] [] ["dummy line"] = .error e :=
  ⟨by decide, c8_missing_marker_exception "nomd" [] [] ["dummy line"] (Or.inl (by decide))⟩

/-! ### C2: the last energy block wins -/

/-- C2: when the report is `A ++ lj :: B` with no energy marker in `B` (so
the block at `lj` is the last energy-components occurrence), the scalar
summary for any mapped energy name equals the last value contributed by
that final occurrence — `parameters[energy_name] = value[-1]` — not the
first occurrence's value and not an average. -/
theorem c2_last_energy_block_wins (md : String) (kinds : List (String × String))
    (cell : List (List ℚ)) (A B : List String) (lj : String)
    (hB : ∀ l ∈ B, energyMarker l = false)
    (name aname : String) (hmap : (name, aname) ∈ ENERGY_NAME_MAPPING)
    (out : ParseOut)
    (hok : _parse_stdout md kinds cell (A ++ lj :: B) = .ok out)
    (v : ℚ)
    (hv : (((energyValsOf (A ++ lj :: B) A.length lj).filter
        (fun p => p.1 = aname)).map Prod.snd).getLast? = some v) :
    dictFind out.params aname = some (.num v) := by
  unfold _parse_stdout at hok
  cases hscan : scanGo (A ++ lj :: B) initState 0 (A ++ lj :: B) with
  | error e => rw [hscan] at hok; cases hok
  | ok st =>
    rw [hscan] at hok
    have h1 := scanGo_energies (A ++ lj :: B) (A ++ lj :: B) 0 initState st hscan
    have hJ : energyJoin (A ++ lj :: B) 0 (A ++ lj :: B)
        = energyJoin (A ++ lj :: B) 0 A ++ energyValsOf (A ++ lj :: B) A.length lj := by
      rw [energyJoin_append (A ++ lj :: B) A (lj :: B) 0]
      have hstep : energyJoin (A ++ lj :: B) (0 + A.length) (lj :: B)
          = energyValsOf (A ++ lj :: B) (0 + A.length) lj
            ++ energyJoin (A ++ lj :: B) (0 + A.length + 1) B := rfl
      rw [hstep, energyJoin_no_marker (A ++ lj :: B) B (0 + A.length + 1) hB]
      simp
    have haname : aname ∈ ENERGY_NAME_MAPPING.map Prod.snd :=
      List.mem_map_of_mem Prod.snd hmap
    have hkeys : st.energies.map Prod.fst = ENERGY_NAME_MAPPING.map Prod.snd := by
      rw [h1, appendVals_keys]
      rfl
    have h0 : dictFind initState.energies aname = some [] := by
      show dictFind (ENERGY_NAME_MAPPING.map (fun p => (p.2, ([] : List ℚ)))) aname = some []
      exact dictFind_energiesInit_mem ENERGY_NAME_MAPPING aname haname
    have hfind : dictFind st.energies aname
        = some ([] ++ ((energyJoin (A ++ lj :: B) 0 (A ++ lj :: B)).filter
            (fun p => p.1 = aname)).map Prod.snd) := by
      rw [h1, dictFind_appendVals, h0]
      rfl
    have hlast : (([] ++ ((energyJoin (A ++ lj :: B) 0 (A ++ lj :: B)).filter
        (fun p => p.1 = aname)).map Prod.snd) : List ℚ).getLast? = some v := by
      rw [List.nil_append, hJ, List.filter_append, List.map_append]
      exact getLast_append_right _ _ v hv
    exact finishPhase_energy_find hok hkeys hfind hlast

/-- Concrete instance of the C2 theorem: in the two-block report
`c2A ++ marker :: c2B` the first block carries `Utot. 1.0` and the final
block `Utot. 2.0`; the summary's `u_tot` is the final block's value
`2.0 * 27.21138602` eV. -/
theorem c2_last_energy_block_wins_witness :
    (∀ l ∈ c2B, energyMarker l = false) ∧
    ∃ out, _parse_stdout "nomd" [] []
        (c2A ++ "Total energy (Hartree) at MD" :: c2B) = .ok out ∧
      dictFind out.params "u_tot" = some (.num (2 * haToEv)) := by
  refine ⟨by decide, ?_⟩
  cases hp : _parse_stdout "nomd" [] [] (c2A ++ "Total energy (Hartree) at MD" :: c2B) with
  | error e =>
    have hok : (_parse_stdout "nomd" [] []
        (c2A ++ "Total energy (Hartree) at MD" :: c2B)).isOk = true := by
      with_unfolding_all rfl
    rw [hp] at hok
    exact Bool.noConfusion hok
  | ok out =>
    refine ⟨out, rfl, ?_⟩
    refine c2_last_energy_block_wins "nomd" [] [] c2A c2B "Total energy (Hartree) at MD"
      (by decide) "Utot." "u_tot" (by decide) out hp (2 * haToEv) ?_
    with_unfolding_all rfl

/-! ### C3: missing timing marker -/

/-- C3 (amended): a report with no `'Computational Time (second)'` marker
produces no failure condition at all — when the parse succeeds (the energy
and eigenvalue blocks being present), its output simply carries no
`elapsed_time` entry and no units tag for it.  The success is
distinguishable from a timing-bearing run only by the absent key. -/
theorem c3_no_marker_silent (md : String) (kinds : List (String × String))
    (cell : List (List ℚ)) (lines : List String) (out : ParseOut)
    (hm : ∀ l ∈ lines, timingMarker l = false)
    (hok : _parse_stdout md kinds cell lines = .ok out) :
    dictFind out.params "elapsed_time" = none ∧
    dictFind out.params "elapsed_time_units" = none := by
  unfold _parse_stdout at hok
  cases hscan : scanGo lines initState 0 lines with
  | error e => rw [hscan] at hok; cases hok
  | ok st =>
    rw [hscan] at hok
    have h1 := scanGo_energies lines lines 0 initState st hscan
    have hkeys : st.energies.map Prod.fst = ENERGY_NAME_MAPPING.map Prod.snd := by
      rw [h1, appendVals_keys]
      rfl
    constructor
    · have hp := scanGo_params lines lines 0 initState st "elapsed_time"
        (by decide)
        (by intro l hl ht p hp2; rw [hm l hl] at ht; cases ht)
        (fun l hl => Or.inl (hm l hl))
        hscan
      have hfin : dictFind out.params "elapsed_time" = dictFind st.params "elapsed_time" :=
        finishPhase_params_preserve hok hkeys
          (by decide) (by decide) (by decide) (by decide)
      rw [hfin, hp]
      rfl
    · have hp := scanGo_params lines lines 0 initState st "elapsed_time_units"
        (by decide)
        (by intro l hl ht p hp2; rw [hm l hl] at ht; cases ht)
        (fun l hl => Or.inl (hm l hl))
        hscan
      have hfin : dictFind out.params "elapsed_time_units"
          = dictFind st.params "elapsed_time_units" :=
        finishPhase_params_preserve hok hkeys
          (by decide) (by decide) (by decide) (by decide)
      rw [hfin, hp]
      rfl

/-- Concrete instance of the C3 theorem: the marker-free report `c2Lines`
parses successfully and its output has no `elapsed_time` entry. -/
theorem c3_no_marker_silent_witness :
    (∀ l ∈ c2Lines, timingMarker l = false) ∧
    ∃ out, _parse_stdout "nomd" [] [] c2Lines = .ok out ∧
      dictFind out.params "elapsed_time" = none := by
  refine ⟨by decide, ?_⟩
  cases hp : _parse_stdout "nomd" [] [] c2Lines with
  | error e =>
    have hok : (_parse_stdout "nomd" [] [] c2Lines).isOk = true := by
      with_unfolding_all rfl
    rw [hp] at hok
    exact Bool.noConfusion hok
  | ok out =>
    exact ⟨out, rfl, (c3_no_marker_silent "nomd" [] [] c2Lines out (by decide) hp).1⟩

/-- Counterexample to the literal C3 claim: this marker-free report yields
a *success* (`.ok`), not any no-marker-found failure condition; the absence
of timing data is visible only as a missing key. -/
theorem c3_no_marker_counterexample :
    (∀ l ∈ c2Lines, timingMarker l = false) ∧
    (_parse_stdout "nomd" [] [] c2Lines).toOption.map
      (fun out => dictFind out.params "elapsed_time") = some none := by
  constructor
  · decide
  · with_unfolding_all rfl

/-! ### C9: per-routine timing entries are never parsed -/

/-- C9: whenever `_parse_stdout` returns a result, the timing portion of
the output holds at most `elapsed_time` and its units tag; no per-routine
name from `TIMING_NAME_MAPPING` (nor its units tag) ever appears, because
the inner loop tests `if key in line:` against the section-marker `line`
instead of the `timing_line` under iteration.  The hypothesis `hmk` states
that the marker lines themselves contain no timing key, which every real
`'Computational Time (second)'` header satisfies. -/
theorem c9_no_routine_timing (md : String) (kinds : List (String × String))
    (cell : List (List ℚ)) (lines : List String) (out : ParseOut) (name : String)
    (hname : name ∈ TIMING_NAME_MAPPING.map Prod.snd)
    (hmk : ∀ l ∈ lines, timingMarker l = true →
      ∀ p ∈ TIMING_NAME_MAPPING, containsSub p.1 l = false)
    (hok : _parse_stdout md kinds cell lines = .ok out) :
    dictFind out.params name = none ∧ dictFind out.params (name ++ "_units") = none := by
  unfold _parse_stdout at hok
  cases hscan : scanGo lines initState 0 lines with
  | error e => rw [hscan] at hok; cases hok
  | ok st =>
    rw [hscan] at hok
    have h1 := scanGo_energies lines lines 0 initState st hscan
    have hkeys : st.energies.map Prod.fst = ENERGY_NAME_MAPPING.map Prod.snd := by
      rw [h1, appendVals_keys]
      rfl
    have hfact1 : ∀ n ∈ TIMING_NAME_MAPPING.map Prod.snd,
        n ∉ generalSectKeys ∧ n ≠ "elapsed_time" ∧ n ≠ "elapsed_time_units" ∧
        n ≠ "e_fermi" ∧ n ≠ "e_fermi_units" ∧ n ≠ "n_states" := by decide
    have hfact2 : ∀ n ∈ TIMING_NAME_MAPPING.map Prod.snd,
        ∀ a ∈ ENERGY_NAME_MAPPING.map Prod.snd, a ≠ n ∧ a ++ "_units" ≠ n := by decide
    have hfact3 : ∀ n ∈ TIMING_NAME_MAPPING.map Prod.snd,
        n ++ "_units" ∉ generalSectKeys ∧ n ++ "_units" ≠ "elapsed_time" ∧
        n ++ "_units" ≠ "elapsed_time_units" ∧ n ++ "_units" ≠ "e_fermi" ∧
        n ++ "_units" ≠ "e_fermi_units" ∧ n ++ "_units" ≠ "n_states" := by decide
    have hfact4 : ∀ n ∈ TIMING_NAME_MAPPING.map Prod.snd,
        ∀ a ∈ ENERGY_NAME_MAPPING.map Prod.snd,
          a ≠ n ++ "_units" ∧ a ++ "_units" ≠ n ++ "_units" := by decide
    obtain ⟨hg, he1, he2, hf1, hf2, hf3⟩ := hfact1 name hname
    obtain ⟨hg', he1', he2', hf1', hf2', hf3'⟩ := hfact3 name hname
    constructor
    · have hp := scanGo_params lines lines 0 initState st name hg hmk
        (fun l hl => Or.inr ⟨he1, he2⟩) hscan
      have hfin : dictFind out.params name = dictFind st.params name :=
        finishPhase_params_preserve hok hkeys (hfact2 name hname) hf1 hf2 hf3
      rw [hfin, hp]
      rfl
    · have hp := scanGo_params lines lines 0 initState st (name ++ "_units") hg'
        hmk (fun l hl => Or.inr ⟨he1', he2'⟩) hscan
      have hfin : dictFind out.params (name ++ "_units")
          = dictFind st.params (name ++ "_units") :=
        finishPhase_params_preserve hok hkeys (hfact4 name hname) hf1' hf2' hf3'
      rw [hfin, hp]
      rfl

/-- Concrete instance of the C9 theorem: `c9Lines` carries a timing block
with well-formed `DFT` and `Force` routine lines, yet the parsed output
holds only `elapsed_time = 12.5` and no `dft` entry. -/
theorem c9_no_routine_timing_witness :
    (∀ l ∈ c9Lines, timingMarker l = true →
      ∀ p ∈ TIMING_NAME_MAPPING, containsSub p.1 l = false) ∧
    ∃ out, _parse_stdout "nomd" [] [] c9Lines = .ok out ∧
      dictFind out.params "dft" = none ∧ dictFind out.params "dft_units" = none ∧
      dictFind out.params "elapsed_time" = some (.num (25/2)) := by
  refine ⟨by decide, ?_⟩
  cases hp : _parse_stdout "nomd" [] [] c9Lines with
  | error e =>
    have hok : (_parse_stdout "nomd" [] [] c9Lines).isOk = true := by
      with_unfolding_all rfl
    rw [hp] at hok
    exact Bool.noConfusion hok
  | ok out =>
    obtain ⟨hdft, hdftu⟩ := c9_no_routine_timing "nomd" [] [] c9Lines out "dft"
      (by decide) (by decide) hp
    refine ⟨out, rfl, hdft, ?_, ?_⟩
    · exact hdftu
    · have hval : (_parse_stdout "nomd" [] [] c9Lines).toOption.map
          (fun o => dictFind o.params "elapsed_time") = some (some (.num (25/2))) := by
        with_unfolding_all rfl
      rw [hp] at hval
      simpa [Except.toOption] using hval
